/-
Verification of the ADVECTOR chunked trajectory output writer
(`src/io_tools/OutputWriter.py`) against its natural-language specification.

The development shallowly embeds the writer's data model and operations:

* A *timestamp* is modelled as a record carrying the only two projections the
  writer ever uses of a `datetime64` value: its calendar year
  (`chunk.time.dt.year`) and its value in seconds since the epoch
  (`.astype("datetime64[s]").astype(np.float64)`).
* A *chunk* (`xr.Dataset` produced by the kernel) is a record of the variables
  the writer reads: `p_id`, `release_date`, `exit_code`, `time`, and the
  particle-by-time matrices `lon`, `lat`, `depth`, plus the 3D statics
  `radius`, `density`, `corey_shape_factor`.  Numeric payloads are carried as
  `Int`; the writer performs no arithmetic on them, only placement and the
  single-byte cast on `exit_code`.
* The on-disk netCDF output file root group is an `OutFile` record; the disk
  is an association list from paths to files inside the `WriterState`.
* `copy_dataset` and `_copy_unexpected_variables` are embedded over a generic
  model of netCDF datasets (`NCDataset`), since they manipulate arbitrary
  attribute/dimension/variable schemas.
-/
import Mathlib

namespace Advector

/-- A timestamp, exposing exactly the two projections `OutputWriter` uses:
the calendar year (`time.dt.year`) and the epoch-seconds value
(`astype("datetime64[s]").astype(np.float64)`). -/
structure Time where
  year : Int
  sec : Int
deriving DecidableEq, Repr

/-- An output chunk (`xr.Dataset`) as consumed by the writer: per-particle
static variables, the shared time axis, and particle-by-time matrices
(rows indexed by particle, columns by time).  The 3D-only fields are ignored
by the 2D writer. -/
structure Chunk where
  p_id : List Int
  release_date : List Int
  exit_code : List Int
  time : List Time
  lon : List (List Int)
  lat : List (List Int)
  depth : List (List Int)
  radius : List Int
  density : List Int
  corey_shape_factor : List Int
deriving DecidableEq, Repr

/-- The root group of one output netCDF file, holding the variables
`_write_first_chunk` / `_append_chunk` create and mutate, together with the
global provenance attributes set at creation (lines 86-89).  The 3D-only
variables are empty lists for files written by the 2D writer.  The embedded
`sourcefile`/`configfile`/forcing groups are modelled separately via
`NCDataset` and `copyDataset` below, since their content never interacts
with the trajectory variables. -/
structure OutFile where
  institution : String
  sourceAttr : String
  argumentsAttr : String
  p_id : List Int
  release_date : List Int
  exit_code : List Int
  time : List Int
  lon : List (List Int)
  lat : List (List Int)
  depth : List (List Int)
  radius : List Int
  density : List Int
  corey_shape_factor : List Int
deriving DecidableEq, Repr

/-- `numpy` cast to `np.byte` (signed 8-bit, wrapping). -/
def toByte (v : Int) : Int := (v + 128) % 256 - 128

/-- Writer state: constructor arguments (`__init__`, lines 34-44) plus the
mutable fields `current_year` and `paths`, plus the on-disk files produced so
far (an association list path ↦ root-group contents).  `out_dir.mkdir` is an
I/O effect represented only through the `folder` path prefix; `version` stands
for the imported `_version.__version__` string and `apiArgumentsStr` for
`str(self.api_arguments)`. -/
structure WriterState where
  folder : String
  basename : String
  currentYear : Option Int
  paths : List String
  files : List (String × OutFile)
  apiEntry : String
  apiArgumentsStr : String
  version : String
deriving DecidableEq, Repr

/-- The two concrete writer variants (`OutputWriter2D`, `OutputWriter3D`). -/
inductive Variant where
  | twoD
  | threeD
deriving DecidableEq, Repr

/-- The deterministic output path for a year:
`self.folder_path / f"{self.basename}_{year}.nc"` (line 48). -/
def mkPath (w : WriterState) (year : Int) : String :=
  w.folder ++ "/" ++ w.basename ++ "_" ++ toString year ++ ".nc"

/-- `_set_current_year` (lines 46-48). -/
def setCurrentYear (w : WriterState) (year : Int) : WriterState :=
  { w with currentYear := some year, paths := w.paths ++ [mkPath w year] }

/-- Association-list lookup of a file on disk (opening a path). -/
def lookupFile : List (String × OutFile) → String → Option OutFile
  | [], _ => none
  | e :: rest, q => if e.1 = q then some e.2 else lookupFile rest q

/-- Association-list update of the disk: creating a file in mode `"w"`
truncates an existing file at the same path, otherwise adds a new one. -/
def setFile : List (String × OutFile) → String → OutFile → List (String × OutFile)
  | [], p, f => [(p, f)]
  | e :: rest, p, f =>
      if e.1 = p then (p, f) :: rest else e :: setFile rest p f

/-- Python `range(a, b + 1)` over integers, as used on line 54. -/
def yearRange (a b : Int) : List Int :=
  (List.range (b + 1 - a).toNat).map (fun i => a + Int.ofNat i)

/-- Select the entries of a particle row whose column's timestamp falls in
`year` (the effect of `chunk.isel({"time": chunk.time.dt.year == year})` on a
`(p_id, time)` variable's row). -/
def sliceRow (ts : List Time) (year : Int) (row : List Int) : List Int :=
  ((ts.zip row).filter (fun p => p.1.year == year)).map Prod.snd

/-- `chunk.isel({"time": chunk.time.dt.year == year})` (line 55): variables
indexed by `time` are restricted to the columns whose timestamp falls in
`year`; variables indexed only by `p_id` are untouched. -/
def sliceYear (c : Chunk) (year : Int) : Chunk :=
  { c with
    time := c.time.filter (fun t => t.year == year)
    lon := c.lon.map (sliceRow c.time year)
    lat := c.lat.map (sliceRow c.time year)
    depth := c.depth.map (sliceRow c.time year) }

/-- The root-group contents produced by the base `_write_first_chunk`
(lines 86-122): provenance attributes, static per-particle variables
(with the byte cast on `exit_code`, line 108), and the initial slice of the
growable variables. -/
def writeFirstChunkBase (w : WriterState) (c : Chunk) : OutFile :=
  { institution := "The Ocean Cleanup"
    sourceAttr := "ADVECTOR Version " ++ w.version
    argumentsAttr :=
      "The arguments of the call to " ++ w.apiEntry ++
        " which produced this file are: " ++ w.apiArgumentsStr
    p_id := c.p_id
    release_date := c.release_date
    exit_code := c.exit_code.map toByte
    time := c.time.map Time.sec
    lon := c.lon
    lat := c.lat
    depth := []
    radius := []
    density := []
    corey_shape_factor := [] }

/-- `OutputWriter3D._write_first_chunk` (lines 189-222): the base file plus
the 3D static variables and the growable `depth` variable.  The added
title/description attributes carry no data and are not modelled. -/
def writeFirstChunk : Variant → WriterState → Chunk → OutFile
  | .twoD, w, c => writeFirstChunkBase w c
  | .threeD, w, c =>
      { writeFirstChunkBase w c with
        radius := c.radius
        density := c.density
        corey_shape_factor := c.corey_shape_factor
        depth := c.depth }

/-- The base `_append_chunk` (lines 134-148): extend `time` at its current
length, extend each `lon`/`lat` row at the same offset, and overwrite
`exit_code` entirely (netCDF coerces the assigned values into the variable's
`np.byte` storage). -/
def appendChunkBase (f : OutFile) (c : Chunk) : OutFile :=
  let start_t := f.time.length
  { f with
    time := f.time ++ c.time.map Time.sec
    lon := List.zipWith (fun fr cr => fr.take start_t ++ cr) f.lon c.lon
    lat := List.zipWith (fun fr cr => fr.take start_t ++ cr) f.lat c.lat
    exit_code := c.exit_code.map toByte }

/-- `OutputWriter3D._append_chunk` (lines 224-230): read the pre-append time
length, delegate to the base append, then extend each `depth` row at the
recorded offset. -/
def appendChunk : Variant → OutFile → Chunk → OutFile
  | .twoD, f, c => appendChunkBase f c
  | .threeD, f, c =>
      let start_t := f.time.length
      let f' := appendChunkBase f c
      { f' with
        depth := List.zipWith (fun fr cr => fr.take start_t ++ cr) f'.depth c.depth }

/-- The `year != self.current_year` branch of `write_output_chunk`
(lines 56-59): mark the year current (appending its path), create the file at
the just-appended path (`self.paths[-1]`) in mode `"w"`, truncating any
existing file there.  `_copy_unexpected_variables` adds nothing for chunks of
the fixed schema modelled by `Chunk`; it is embedded separately over
`NCDataset` below. -/
def createForYear (v : Variant) (cy : Chunk) (w : WriterState) (year : Int) :
    WriterState :=
  let w' := setCurrentYear w year
  { w' with files := setFile w'.files (mkPath w year) (writeFirstChunk v w' cy) }

/-- The `else` branch of `write_output_chunk` (line 61): open `self.paths[-1]`
in mode `"a"` and append.  `none` models the exceptions Python would raise
(`IndexError` on an empty path list, a netCDF error opening a missing file in
append mode). -/
def appendForYear (v : Variant) (cy : Chunk) (w : WriterState) :
    Option WriterState :=
  (w.paths.getLast?).bind (fun p =>
    (lookupFile w.files p).bind (fun f =>
      some { w with files := setFile w.files p (appendChunk v f cy) }))

/-- One iteration of the per-year loop of `write_output_chunk`
(lines 54-61). -/
def stepYear (v : Variant) (c : Chunk) (w : WriterState) (year : Int) :
    Option WriterState :=
  let cy := sliceYear c year
  if w.currentYear ≠ some year then some (createForYear v cy w year)
  else appendForYear v cy w

/-- `write_output_chunk` (lines 50-61): loop over
`range(beginning_year, end_year + 1)` where the bounds are the years of the
chunk's first and last timestamps.  `none` models the `IndexError` raised on
a chunk with an empty time axis. -/
def writeOutputChunk (v : Variant) (w : WriterState) (c : Chunk) :
    Option WriterState :=
  match c.time.head?, c.time.getLast? with
  | some t0, some t1 => (yearRange t0.year t1.year).foldlM (stepYear v c) w
  | _, _ => none

/-- Ingest a sequence of chunks in order through one writer instance. -/
def writeSequence (v : Variant) (w : WriterState) (cs : List Chunk) :
    Option WriterState :=
  cs.foldlM (writeOutputChunk v) w

/-- A freshly constructed writer (`__init__`, lines 34-44): no current year,
no paths, nothing on disk. -/
def initWriter (folder basename apiEntry apiArgs version : String) :
    WriterState :=
  { folder := folder
    basename := basename
    currentYear := none
    paths := []
    files := []
    apiEntry := apiEntry
    apiArgumentsStr := apiArgs
    version := version }

/-! ### Generic netCDF dataset model: `copy_dataset` and
`_copy_unexpected_variables` -/

/-- A netCDF variable: datatype, referenced dimension names, attributes, and
data payload. -/
structure NCVariable where
  datatype : String
  dimensions : List String
  attrs : List (String × String)
  data : List Int
deriving DecidableEq, Repr

/-- A netCDF dataset (a root group or sub-group): global attributes,
dimensions (`none` length = unlimited), and variables, each an ordered
name-keyed association list (netCDF names are unique within a group). -/
structure NCDataset where
  attrs : List (String × String)
  dims : List (String × Option Nat)
  vars : List (String × NCVariable)
deriving DecidableEq, Repr

/-- A freshly created group (`ds.createGroup(...)`): empty. -/
def emptyNC : NCDataset := { attrs := [], dims := [], vars := [] }

/-- Set one attribute: replace the value of an existing name, otherwise
append. -/
def setAttr : List (String × String) → String → String → List (String × String)
  | [], n, v => [(n, v)]
  | e :: rest, n, v =>
      if e.1 = n then (n, v) :: rest else e :: setAttr rest n v

/-- `setncatts`: set every attribute of `src` on `dst`, in order. -/
def setAtts (dst src : List (String × String)) : List (String × String) :=
  src.foldl (fun acc p => setAttr acc p.1 p.2) dst

/-- `createDimension`: raises on a name already defined in the group,
otherwise records the dimension (preserving the unlimited marker). -/
def createDimension (d : NCDataset) (name : String) (len : Option Nat) :
    Except String NCDataset :=
  if (d.dims.map Prod.fst).contains name then
    .error ("dimension name in use: " ++ name)
  else
    .ok { d with dims := d.dims ++ [(name, len)] }

/-- `createVariable`: raises on a name already defined in the group, and on a
referenced dimension that is not defined; otherwise records an empty variable
of the given datatype and dimensions. -/
def createVariable (d : NCDataset) (name : String) (datatype : String)
    (dimensions : List String) : Except String NCDataset :=
  if (d.vars.map Prod.fst).contains name then
    .error ("variable name in use: " ++ name)
  else if dimensions.any (fun dim => !((d.dims.map Prod.fst).contains dim)) then
    .error ("undefined dimension in variable: " ++ name)
  else
    .ok { d with
          vars := d.vars ++
            [(name, { datatype := datatype, dimensions := dimensions,
                      attrs := [], data := [] })] }

/-- Update the variable of the given name in a variable list: set its
attributes and assign its full data payload. -/
def setVarAttrsDataList : List (String × NCVariable) → String →
    List (String × String) → List Int → List (String × NCVariable)
  | [], _, _, _ => []
  | e :: rest, n, attrs, data =>
      if e.1 = n then
        (e.1, { e.2 with attrs := setAtts e.2.attrs attrs, data := data }) ::
          setVarAttrsDataList rest n attrs data
      else e :: setVarAttrsDataList rest n attrs data

/-- Set a variable's attributes and assign its full data payload
(`destination[name].setncatts(...)`; `destination[name][:] = ...`). -/
def setVarAttrsData (d : NCDataset) (name : String)
    (attrs : List (String × String)) (data : List Int) : NCDataset :=
  { d with vars := setVarAttrsDataList d.vars name attrs data }

/-- `copy_dataset(source, destination)` (lines 233-249): copy global
attributes, then every dimension (keeping the unlimited/fixed distinction),
then every variable with its datatype, dimension references, attributes and
data. -/
def copyDataset (src dst : NCDataset) : Except String NCDataset := do
  let d0 := { dst with attrs := setAtts dst.attrs src.attrs }
  let d1 ← src.dims.foldlM (fun d p => createDimension d p.1 p.2) d0
  let d2 ← src.vars.foldlM
    (fun d p => do
      let d' ← createVariable d p.1 p.2.datatype p.2.dimensions
      pure (setVarAttrsData d' p.1 p.2.attrs p.2.data))
    d1
  pure d2

/-- Well-formedness of a real netCDF dataset: names within each association
list are unique (netCDF dictionaries), and every dimension a variable
references is defined in the group. -/
def NCDataset.wf (d : NCDataset) : Prop :=
  (d.attrs.map Prod.fst).Nodup ∧
  (d.dims.map Prod.fst).Nodup ∧
  (d.vars.map Prod.fst).Nodup ∧
  (∀ p ∈ d.vars, (p.2.attrs.map Prod.fst).Nodup) ∧
  (∀ p ∈ d.vars, ∀ dim ∈ p.2.dimensions, dim ∈ d.dims.map Prod.fst)

instance (d : NCDataset) : Decidable d.wf := by
  unfold NCDataset.wf
  infer_instance

/-- `_copy_unexpected_variables` (lines 124-132): among the chunk's variables
indexed solely by `p_id` (what survives `drop_dims` of every other dimension),
create-and-copy each one whose name is not already defined in the file;
a name already defined is skipped. -/
def addUnexpectedVar (d : NCDataset) (p : String × NCVariable) : NCDataset :=
  if (d.vars.map Prod.fst).contains p.1 then d
  else
    { d with
      vars := d.vars ++
        [(p.1, { datatype := p.2.datatype, dimensions := ["p_id"],
                 attrs := p.2.attrs, data := p.2.data })] }

def copyUnexpectedVariables (ds : NCDataset)
    (chunkVars : List (String × NCVariable)) : NCDataset :=
  (chunkVars.filter (fun p => p.2.dimensions.all (· == "p_id"))).foldl
    addUnexpectedVar ds

/-! ### Transient forcing-metadata files (`_write_first_chunk`,
lines 70-83) -/

/-- The transient path `self.folder_path / f"{forcing.name}_meta_tmp.nc"`
(line 79), with the folder prefix elided. -/
def tmpMetaPath (forcing : String) : String := forcing ++ "_meta_tmp.nc"

/-- The forcing-metadata embedding loop of `_write_first_chunk`
(lines 70-83), tracking which transient files exist on disk.  For each
forcing: `meta.to_netcdf(tmp)` creates the transient file, the copy from it
into the forcing's group runs inside a `with` block, and `os.remove(tmp)`
runs afterwards — *not* in a `finally`.  `raises f = true` models the
underlying netCDF library raising during the copy for forcing `f` (Python
semantics let any of these calls raise); the exception propagates, so the
loop stops and the removal is skipped.  Returns the final disk contents and
whether the loop completed without an exception. -/
def writeForcingMeta (forcings : List String) (raises : String → Bool)
    (disk : List String) : List String × Bool :=
  match forcings with
  | [] => (disk, true)
  | f :: rest =>
      let disk' := disk ++ [tmpMetaPath f]
      if raises f then (disk', false)
      else writeForcingMeta rest raises (disk'.erase (tmpMetaPath f))

/-! ### The `exit_code` variable and the error-code registry
(lines 103-108) -/

/-- The embedded meaning table (line 107): the entries of the external
error-code registry (`EXIT_CODES`, a code ↦ meaning mapping) whose code is
non-negative. -/
def codeToMeaningTable (registry : List (Int × String)) : List (Int × String) :=
  registry.filter (fun p => 0 ≤ p.1)

/-- The `exit_code` variable as created by `_write_first_chunk`
(lines 103-108): datatype `np.byte` (single-byte signed), over the `p_id`
dimension only, carrying the filtered meaning table (the `code_to_meaning`
attribute holds `str(...)` of this table; the table itself is modelled) and
the chunk's exit codes cast to bytes. -/
structure ExitCodeVar where
  datatype : String
  dimensions : List String
  codeToMeaning : List (Int × String)
  data : List Int
deriving DecidableEq, Repr

/-- Create the `exit_code` variable from the registry and the first chunk's
exit-code values. -/
def mkExitCodeVar (registry : List (Int × String)) (vals : List Int) :
    ExitCodeVar :=
  { datatype := "byte"
    dimensions := ["p_id"]
    codeToMeaning := codeToMeaningTable registry
    data := vals.map toByte }

/-! ### Derived notions used to state the claims -/

/-- The output file currently on disk for `year` after ingesting the chunk
sequence `cs` through a writer started in state `w`: `none` if ingestion
raised or no file exists at the year's deterministic path. -/
def outputFileAt (v : Variant) (w : WriterState) (cs : List Chunk) (year : Int) :
    Option OutFile :=
  (writeSequence v w cs).bind (fun st => lookupFile st.files (mkPath w year))

/-- Chunkwise horizontal concatenation of particle-by-time matrices: row `i`
of the result is the concatenation of row `i` of each matrix in order, so the
block coming from matrix `j` starts at column offset `t1 + ... + t(j-1)`. -/
def concatRows : List (List (List Int)) → List (List Int)
  | [] => []
  | rs :: rest => rest.foldl (List.zipWith (· ++ ·)) rs

/-- Shape discipline for a particle-by-time matrix: `p` rows, each of length
`t`. -/
def rowsWF (rows : List (List Int)) (p t : Nat) : Prop :=
  rows.length = p ∧ ∀ r ∈ rows, r.length = t

instance (rows : List (List Int)) (p t : Nat) : Decidable (rowsWF rows p t) := by
  unfold rowsWF
  infer_instance

/-- Shape discipline of a chunk delivered by the kernel: the matrices have
one row per particle and one column per timestamp. -/
def ChunkWF (p : Nat) (c : Chunk) : Prop :=
  rowsWF c.lon p c.time.length ∧ rowsWF c.lat p c.time.length ∧
    rowsWF c.depth p c.time.length

instance (p : Nat) (c : Chunk) : Decidable (ChunkWF p c) := by
  unfold ChunkWF
  infer_instance

/-- Shape discipline of an output file's growable variables, per variant:
matrices are particle-by-(current time length), and 2D files have no `depth`
variable. -/
def OutFileWF (v : Variant) (p : Nat) (f : OutFile) : Prop :=
  rowsWF f.lon p f.time.length ∧ rowsWF f.lat p f.time.length ∧
    (v = Variant.threeD → rowsWF f.depth p f.time.length) ∧
    (v = Variant.twoD → f.depth = [])

instance (v : Variant) (p : Nat) (f : OutFile) : Decidable (OutFileWF v p f) := by
  unfold OutFileWF
  infer_instance

/-- The internal consistency condition `write_output_chunk` maintains between
the mutable writer fields: whenever a year is tracked, the last recorded path
is that year's path and a file exists there on disk. -/
def WriterInv (w : WriterState) : Prop :=
  match w.currentYear with
  | none => True
  | some y =>
      w.paths.getLast? = some (mkPath w y) ∧
        (lookupFile w.files (mkPath w y)).isSome

instance (w : WriterState) : Decidable (WriterInv w) := by
  unfold WriterInv
  cases w.currentYear <;> infer_instance

/-- The years for which the per-year loop of `write_output_chunk` takes the
file-creation branch, given the tracked year on entry and the chunk's first
and last timestamp years `a ≤ b`: every year of `range(a, b + 1)`, except
that `a` itself is skipped (appended to, not created) when it is already the
tracked year. -/
def chunkNewYears (cur : Option Int) (a b : Int) : List Int :=
  if cur = some a then yearRange (a + 1) b else yearRange a b

/-- The file-creation years accumulated over the per-year loop run on an
explicit list of years (the loop tracks the year of the previous
iteration). -/
def newYearsList : Option Int → List Int → List Int
  | _, [] => []
  | cur, y :: rest => (if cur = some y then [] else [y]) ++ newYearsList (some y) rest

/-- The file-creation years accumulated over a sequence of chunks, given
each chunk's (first-timestamp year, last-timestamp year) span: after a chunk
the tracked year is its last year. -/
def collectNewYears : Option Int → List (Int × Int) → List Int
  | _, [] => []
  | cur, s :: rest => chunkNewYears cur s.1 s.2 ++ collectNewYears (some s.2) rest

/-- The (first-timestamp year, last-timestamp year) span of a chunk, as read
by lines 51-52; `none` models the `IndexError` on an empty time axis. -/
def chunkYearSpan (c : Chunk) : Option (Int × Int) :=
  match c.time.head?, c.time.getLast? with
  | some t0, some t1 => some (t0.year, t1.year)
  | _, _ => none

/-- The spans of a whole chunk sequence. -/
def chunkSpans (cs : List Chunk) : Option (List (Int × Int)) :=
  cs.mapM chunkYearSpan

/-- Name-keyed lookup in a netCDF variable list. -/
def alookup : List (String × NCVariable) → String → Option NCVariable
  | [], _ => none
  | e :: rest, n => if e.1 = n then some e.2 else alookup rest n

/-- Whether an `Except` computation raised. -/
def raised {ε α : Type} : Except ε α → Bool
  | .error _ => true
  | .ok _ => false

/-! ### Concrete fixtures for witnesses and counterexamples -/

/-- A concrete writer constructed over directory `out`, basename `traj`. -/
def w0 : WriterState := initWriter "out" "traj" "run_advector" "argsdict" "1.2.3"

/-- A one-particle chunk with all timestamps in `year`, exit code `code`,
and constant-valued rows of matching shape. -/
def soloChunk (year : Int) (secs : List Int) (code : Int) (v : Int) : Chunk :=
  { p_id := [7]
    release_date := [100]
    exit_code := [code]
    time := secs.map (fun s => { year := year, sec := s })
    lon := [List.replicate secs.length v]
    lat := [List.replicate secs.length (v + 1)]
    depth := [List.replicate secs.length (v + 2)]
    radius := [1]
    density := [2]
    corey_shape_factor := [3] }

/-- A chunk whose last timestamp's calendar year precedes its first's. -/
def reversedChunk : Chunk :=
  { soloChunk 2001 [5, 9] 0 1 with
    time := [{ year := 2001, sec := 5 }, { year := 1999, sec := 9 }] }

/-- A chunk with monotonically increasing timestamps whose calendar years are
1999 and 2001 — the year 2000 is absent. -/
def gapChunk : Chunk :=
  { soloChunk 1999 [0, 100] 0 1 with
    time := [{ year := 1999, sec := 0 }, { year := 2001, sec := 100 }] }

/-- A writer whose tracked year has advanced to 2000. -/
def wPrev : WriterState := { w0 with currentYear := some 2000 }

/-- A small concrete well-formed source container: one attribute, a fixed and
an unlimited dimension, and one variable with attributes and data. -/
def sampleNC : NCDataset :=
  { attrs := [("title", "drifter sources")]
    dims := [("p_id", some 2), ("time", none)]
    vars := [("lon", { datatype := "f4", dimensions := ["p_id", "time"],
                       attrs := [("units", "Degrees East")], data := [1, 2] })] }

/-- A container already holding a per-particle variable `age`. -/
def dsWithAge : NCDataset :=
  { attrs := []
    dims := [("p_id", some 1)]
    vars := [("age", { datatype := "f8", dimensions := ["p_id"],
                       attrs := [], data := [1] })] }

/-- A source container holding a variable `age` (colliding with `dsWithAge`)
over its own dimension. -/
def srcWithAge : NCDataset :=
  { attrs := []
    dims := [("depth", some 1)]
    vars := [("age", { datatype := "f8", dimensions := ["depth"],
                       attrs := [], data := [9] })] }

/-! ## Theorems -/

/-- The byte cast is the identity on values already in signed 8-bit range. -/
theorem toByte_eq_self {x : Int} (h1 : -128 ≤ x) (h2 : x ≤ 127) : toByte x = x := by
  unfold toByte
  have h3 : 0 ≤ x + 128 := by omega
  have h4 : x + 128 < 256 := by omega
  rw [Int.emod_eq_of_lt h3 h4]
  omega

theorem map_toByte_eq {l : List Int} (h : ∀ x ∈ l, -128 ≤ x ∧ x ≤ 127) :
    l.map toByte = l := by
  induction l with
  | nil => rfl
  | cons a t ih =>
      have ha := h a (by simp)
      simp only [List.map_cons]
      rw [toByte_eq_self ha.1 ha.2, ih (fun x hx => h x (by simp [hx]))]

/-- Claim C10: a chunk whose last timestamp falls in a strictly earlier
calendar year than its first makes the per-year loop range empty, so
`write_output_chunk` writes nothing and leaves the writer state (tracked
year, path list, disk) unchanged. -/
theorem writeOutputChunk_reversed_years_noop (v : Variant) (w : WriterState)
    (c : Chunk) (t0 t1 : Time) (h0 : c.time.head? = some t0)
    (h1 : c.time.getLast? = some t1) (hlt : t1.year < t0.year) :
    writeOutputChunk v w c = some w := by
  unfold writeOutputChunk
  rw [h0, h1]
  have he : yearRange t0.year t1.year = [] := by
    unfold yearRange
    have hz : (t1.year + 1 - t0.year).toNat = 0 := by omega
    rw [hz]
    rfl
  show List.foldlM (stepYear v c) w (yearRange t0.year t1.year) = some w
  rw [he]
  rfl

/-- Witness for C10 on a concrete reversed-year chunk. -/
theorem writeOutputChunk_reversed_years_noop_witness :
    writeOutputChunk Variant.twoD w0 reversedChunk = some w0 :=
  writeOutputChunk_reversed_years_noop Variant.twoD w0 reversedChunk
    { year := 2001, sec := 5 } { year := 1999, sec := 9 }
    (by decide) (by decide) (by decide)

/-- Claim C9: the `exit_code` variable is single-byte signed over the `p_id`
dimension, and its embedded meaning table holds exactly the entries of the
external error-code registry with non-negative codes — every negative code is
excluded. -/
theorem mkExitCodeVar_spec (registry : List (Int × String)) (vals : List Int) :
    (mkExitCodeVar registry vals).datatype = "byte" ∧
    (mkExitCodeVar registry vals).dimensions = ["p_id"] ∧
    ∀ code meaning,
      (code, meaning) ∈ (mkExitCodeVar registry vals).codeToMeaning ↔
        ((code, meaning) ∈ registry ∧ 0 ≤ code) := by
  refine ⟨rfl, rfl, fun code meaning => ?_⟩
  simp [mkExitCodeVar, codeToMeaningTable, List.mem_filter]

/-- Claim C8 counterexample: the attribute recording the API call does not
have the text `arguments used to invoke {api_entry}: {api_arguments}` claimed
by the spec; at a concrete entry point and argument string the produced
attribute differs from the claimed template's instantiation. -/
theorem arguments_attribute_text_differs :
    (writeFirstChunk Variant.twoD w0 (soloChunk 2000 [10] 0 1)).argumentsAttr ≠
      "arguments used to invoke run_advector: argsdict" := by
  decide

/-- Claim C8 (amended): first-chunk initialization sets the institution
attribute to `The Ocean Cleanup`, the source attribute to
`ADVECTOR Version {version}`, and the API-call attribute to
`The arguments of the call to {api_entry} which produced this file are:
{api_arguments}`, for both writer variants. -/
theorem writeFirstChunk_provenance_attrs (v : Variant) (w : WriterState)
    (c : Chunk) :
    (writeFirstChunk v w c).institution = "The Ocean Cleanup" ∧
    (writeFirstChunk v w c).sourceAttr = "ADVECTOR Version " ++ w.version ∧
    (writeFirstChunk v w c).argumentsAttr =
      "The arguments of the call to " ++ w.apiEntry ++
        " which produced this file are: " ++ w.apiArgumentsStr := by
  cases v <;> exact ⟨rfl, rfl, rfl⟩

/-- Claim C5 counterexample: a first chunk reports non-zero exit code 3 and a
later same-year chunk reports the different code 5 for the same particle; the
append is accepted without any fault and the stored code silently becomes
5. -/
theorem exit_code_regression_not_validated :
    (soloChunk 2000 [10] 3 50).exit_code = [3] ∧
    (soloChunk 2000 [20] 5 60).exit_code = [5] ∧
    (outputFileAt Variant.twoD w0
        [soloChunk 2000 [10] 3 50, soloChunk 2000 [20] 5 60] 2000).map
        OutFile.exit_code = some [5] := by
  exact ⟨rfl, rfl, by decide⟩

/-- Claim C5 (amended): the append operation performs no validation of
exit-code regressions: it always succeeds and overwrites the stored
`exit_code` entirely with the incoming chunk's values (sticky codes are a
documented producer contract, not enforced by the writer). -/
theorem appendChunk_overwrites_exit_code (v : Variant) (f : OutFile) (c : Chunk)
    (h : ∀ x ∈ c.exit_code, -128 ≤ x ∧ x ≤ 127) :
    (appendChunk v f c).exit_code = c.exit_code := by
  cases v <;> simp [appendChunk, appendChunkBase, map_toByte_eq h]

/-- Witness for the amended C5 at a concrete file and chunk. -/
theorem appendChunk_overwrites_exit_code_witness :
    (appendChunk Variant.threeD
        (writeFirstChunk Variant.threeD w0 (soloChunk 2000 [10] 3 50))
        (soloChunk 2000 [20] 5 60)).exit_code = [5] :=
  appendChunk_overwrites_exit_code Variant.threeD
    (writeFirstChunk Variant.threeD w0 (soloChunk 2000 [10] 3 50))
    (soloChunk 2000 [20] 5 60) (by decide)

/-- Claim C7 counterexample: if the copy out of the transient forcing-metadata
file raises (here: the underlying library fails for the single forcing
`currents`), first-chunk initialization propagates the exception with the
transient `currents_meta_tmp.nc` still on disk — the removal is not on the
failure path. -/
theorem forcing_meta_tmp_left_on_failure :
    (writeForcingMeta ["currents"] (fun _ => true) []).2 = false ∧
    tmpMetaPath "currents" ∈ (writeForcingMeta ["currents"] (fun _ => true) []).1 := by
  exact ⟨rfl, by decide⟩

/-- Claim C7 (amended): on the success path every transient forcing-metadata
file is created, used and deleted within the initialization loop: if no copy
raises, the loop completes and the disk is exactly as before. -/
theorem writeForcingMeta_success_removes_tmp (forcings : List String)
    (raises : String → Bool) (disk : List String)
    (hOK : ∀ f ∈ forcings, raises f = false)
    (hdisk : ∀ f ∈ forcings, tmpMetaPath f ∉ disk) :
    writeForcingMeta forcings raises disk = (disk, true) := by
  induction forcings generalizing disk with
  | nil => rfl
  | cons f rest ih =>
      have hf : raises f = false := hOK f (by simp)
      unfold writeForcingMeta
      rw [hf]
      simp only [Bool.false_eq_true, if_false]
      have herase : (disk ++ [tmpMetaPath f]).erase (tmpMetaPath f) = disk := by
        rw [List.erase_append_right _ (hdisk f (by simp))]
        simp
      rw [herase]
      exact ih disk (fun g hg => hOK g (List.mem_cons_of_mem f hg))
        (fun g hg => hdisk g (List.mem_cons_of_mem f hg))

/-- Witness for the amended C7 on two forcings over a non-empty disk. -/
theorem writeForcingMeta_success_removes_tmp_witness :
    writeForcingMeta ["currents", "wind"] (fun _ => false) ["other.nc"] =
      (["other.nc"], true) :=
  writeForcingMeta_success_removes_tmp ["currents", "wind"] (fun _ => false)
    ["other.nc"] (by decide) (by decide)

/-! ### Lemmas on the copy utility -/

theorem exceptBind_ok {ε α β : Type} (x : α) (f : α → Except ε β) :
    (do
      let y ← Except.ok x
      f y : Except ε β) = f x := rfl

theorem exceptBind_pure {ε α β : Type} (x : α) (f : α → Except ε β) :
    (do
      let y ← (pure x : Except ε α)
      f y : Except ε β) = f x := rfl

theorem exceptBind_error {ε α β : Type} (e : ε) (f : α → Except ε β) :
    (do
      let y ← (Except.error e : Except ε α)
      f y : Except ε β) = Except.error e := rfl

theorem setAttr_not_mem (l : List (String × String)) (n v : String)
    (h : n ∉ l.map Prod.fst) : setAttr l n v = l ++ [(n, v)] := by
  induction l with
  | nil => rfl
  | cons a t ih =>
      simp only [List.map_cons, List.mem_cons, not_or] at h
      unfold setAttr
      rw [if_neg (fun he => h.1 he.symm), ih h.2]
      rfl

theorem setAtts_append_of_disjoint (src : List (String × String)) :
    ∀ dst : List (String × String), (src.map Prod.fst).Nodup →
      (∀ p ∈ src, p.1 ∉ dst.map Prod.fst) →
      setAtts dst src = dst ++ src := by
  induction src with
  | nil =>
      intro dst _ _
      simp [setAtts]
  | cons a t ih =>
      intro dst hnd hdisj
      simp only [List.map_cons, List.nodup_cons] at hnd
      have h1 : a.1 ∉ dst.map Prod.fst := hdisj a (by simp)
      show setAtts (setAttr dst a.1 a.2) t = dst ++ a :: t
      rw [setAttr_not_mem dst a.1 a.2 h1]
      rw [ih (dst ++ [(a.1, a.2)]) hnd.2 ?_]
      · simp
      · intro p hp
        simp only [List.map_append, List.mem_append, List.map_cons,
          List.map_nil, List.mem_singleton, not_or]
        refine ⟨fun hc => hdisj p (by simp [hp]) hc, fun hc => ?_⟩
        exact hnd.1 (hc ▸ List.mem_map_of_mem Prod.fst hp)

theorem foldDims_ok (ds : List (String × Option Nat)) :
    ∀ d : NCDataset, (ds.map Prod.fst).Nodup →
      (∀ p ∈ ds, p.1 ∉ d.dims.map Prod.fst) →
      ds.foldlM (fun d p => createDimension d p.1 p.2) d =
        Except.ok { d with dims := d.dims ++ ds } := by
  induction ds with
  | nil =>
      intro d _ _
      simp only [List.foldlM_nil, List.append_nil]
      rfl
  | cons a t ih =>
      intro d hnd hdisj
      simp only [List.map_cons, List.nodup_cons] at hnd
      have h1 : a.1 ∉ d.dims.map Prod.fst := hdisj a (by simp)
      have hc : createDimension d a.1 a.2 =
          Except.ok { d with dims := d.dims ++ [(a.1, a.2)] } := by
        simp [createDimension, h1]
      simp only [List.foldlM_cons]
      rw [hc]
      show List.foldlM (fun d p => createDimension d p.1 p.2)
        { d with dims := d.dims ++ [(a.1, a.2)] } t = _
      rw [ih { d with dims := d.dims ++ [(a.1, a.2)] } hnd.2 ?_]
      · simp
      · intro p hp
        simp only [List.map_append, List.mem_append, List.map_cons,
          List.map_nil, List.mem_singleton, not_or]
        refine ⟨fun hc2 => hdisj p (by simp [hp]) hc2, fun hc2 => ?_⟩
        exact hnd.1 (hc2 ▸ List.mem_map_of_mem Prod.fst hp)

theorem setVarAttrsDataList_not_mem (l : List (String × NCVariable))
    (n : String) (attrs : List (String × String)) (data : List Int)
    (h : n ∉ l.map Prod.fst) : setVarAttrsDataList l n attrs data = l := by
  induction l with
  | nil => rfl
  | cons a t ih =>
      simp only [List.map_cons, List.mem_cons, not_or] at h
      unfold setVarAttrsDataList
      rw [if_neg (fun he => h.1 he.symm), ih h.2]

theorem setVarAttrsDataList_append (l1 l2 : List (String × NCVariable))
    (n : String) (attrs : List (String × String)) (data : List Int) :
    setVarAttrsDataList (l1 ++ l2) n attrs data =
      setVarAttrsDataList l1 n attrs data ++ setVarAttrsDataList l2 n attrs data := by
  induction l1 with
  | nil => rfl
  | cons a t ih =>
      by_cases h : a.1 = n <;> simp [setVarAttrsDataList, h, ih]

theorem setVarAttrsDataList_keys (l : List (String × NCVariable)) (n : String)
    (attrs : List (String × String)) (data : List Int) :
    (setVarAttrsDataList l n attrs data).map Prod.fst = l.map Prod.fst := by
  induction l with
  | nil => rfl
  | cons a t ih =>
      unfold setVarAttrsDataList
      split <;> simp [ih]

theorem setVarAttrsData_keys (d : NCDataset) (n : String)
    (attrs : List (String × String)) (data : List Int) :
    (setVarAttrsData d n attrs data).vars.map Prod.fst = d.vars.map Prod.fst := by
  unfold setVarAttrsData
  exact setVarAttrsDataList_keys d.vars n attrs data

theorem copyVarStep_ok (d : NCDataset) (n : String) (v : NCVariable)
    (hn : n ∉ d.vars.map Prod.fst)
    (ha : (v.attrs.map Prod.fst).Nodup)
    (hd : ∀ dim ∈ v.dimensions, dim ∈ d.dims.map Prod.fst) :
    (do
      let d' ← createVariable d n v.datatype v.dimensions
      pure (setVarAttrsData d' n v.attrs v.data) : Except String NCDataset) =
      Except.ok { d with vars := d.vars ++ [(n, v)] } := by
  have hd2 : ∀ dim ∈ v.dimensions, ∃ l2, (dim, l2) ∈ d.dims := by
    intro dim hdim
    obtain ⟨q, hq, hqe⟩ := List.mem_map.mp (hd dim hdim)
    exact ⟨q.2, by rw [show (dim, q.2) = q from by rw [← hqe]]; exact hq⟩
  have hany : (v.dimensions.any fun dim => !((d.dims.map Prod.fst).contains dim))
      = false := by
    simp
    exact hd2
  have h1 : ((d.vars.map Prod.fst).contains n) = false := by simp [hn]
  have hc : createVariable d n v.datatype v.dimensions =
      Except.ok { d with
        vars := d.vars ++
          [(n, { datatype := v.datatype, dimensions := v.dimensions,
                 attrs := [], data := [] })] } := by
    unfold createVariable
    rw [h1, hany]
    rfl
  rw [show (do
      let d' ← createVariable d n v.datatype v.dimensions
      pure (setVarAttrsData d' n v.attrs v.data) : Except String NCDataset) =
    Except.ok (setVarAttrsData
      { d with
        vars := d.vars ++
          [(n, { datatype := v.datatype, dimensions := v.dimensions,
                 attrs := [], data := [] })] } n v.attrs v.data) from by
    rw [hc]; rfl]
  congr 1
  unfold setVarAttrsData
  show ({ d with
    vars := setVarAttrsDataList
      (d.vars ++
        [(n, { datatype := v.datatype, dimensions := v.dimensions,
               attrs := [], data := [] })]) n v.attrs v.data } : NCDataset) = _
  rw [setVarAttrsDataList_append, setVarAttrsDataList_not_mem d.vars n v.attrs v.data hn]
  unfold setVarAttrsDataList
  rw [if_pos rfl]
  rw [setAtts_append_of_disjoint v.attrs [] ha (by simp)]
  rfl

theorem foldVars_ok (vs : List (String × NCVariable)) :
    ∀ d : NCDataset, (vs.map Prod.fst).Nodup →
      (∀ p ∈ vs, p.1 ∉ d.vars.map Prod.fst) →
      (∀ p ∈ vs, (p.2.attrs.map Prod.fst).Nodup) →
      (∀ p ∈ vs, ∀ dim ∈ p.2.dimensions, dim ∈ d.dims.map Prod.fst) →
      vs.foldlM (fun d p => do
          let d' ← createVariable d p.1 p.2.datatype p.2.dimensions
          pure (setVarAttrsData d' p.1 p.2.attrs p.2.data)) d =
        Except.ok { d with vars := d.vars ++ vs } := by
  induction vs with
  | nil =>
      intro d _ _ _ _
      simp only [List.foldlM_nil, List.append_nil]
      rfl
  | cons a t ih =>
      intro d hnd hdisj hattrs hdims
      simp only [List.map_cons, List.nodup_cons] at hnd
      have hstep := copyVarStep_ok d a.1 a.2 (hdisj a (by simp))
        (hattrs a (by simp)) (hdims a (by simp))
      simp only [List.foldlM_cons]
      rw [hstep, exceptBind_ok]
      rw [ih { d with vars := d.vars ++ [(a.1, a.2)] } hnd.2 ?_
        (fun p hp => hattrs p (by simp [hp]))
        (fun p hp => hdims p (by simp [hp]))]
      · simp
      · intro p hp
        simp only [List.map_append, List.mem_append, List.map_cons,
          List.map_nil, List.mem_singleton, not_or]
        refine ⟨fun hc => hdisj p (by simp [hp]) hc, fun hc => ?_⟩
        exact hnd.1 (hc ▸ List.mem_map_of_mem Prod.fst hp)

/-- Claim C3: copying a well-formed source container into a freshly created
destination group reproduces every global attribute, every dimension with the
unlimited/fixed distinction preserved, and every variable with its datatype,
dimension references, attributes and full data payload — the destination's
content is exactly the source's, so the embedded `sourcefile` (and, for the
3D writer, `configfile`) group matches the original container
structure-for-structure and attribute-for-attribute. -/
theorem copyDataset_fresh_reproduces_source (src : NCDataset) (h : src.wf) :
    copyDataset src emptyNC =
      Except.ok { attrs := src.attrs, dims := src.dims, vars := src.vars } := by
  obtain ⟨ha, hd, hv, hva, hvd⟩ := h
  show Except.bind
    (src.dims.foldlM (fun d p => createDimension d p.1 p.2)
      { emptyNC with attrs := setAtts emptyNC.attrs src.attrs })
    (fun d1 => Except.bind
      (src.vars.foldlM (fun d p => do
          let d' ← createVariable d p.1 p.2.datatype p.2.dimensions
          pure (setVarAttrsData d' p.1 p.2.attrs p.2.data)) d1)
      (fun d2 => pure d2)) = _
  have h0 : ({ emptyNC with attrs := setAtts emptyNC.attrs src.attrs } : NCDataset) =
      { attrs := src.attrs, dims := [], vars := [] } := by
    show ({ attrs := setAtts [] src.attrs, dims := [], vars := [] } : NCDataset) = _
    rw [setAtts_append_of_disjoint src.attrs [] ha (by simp)]
    rfl
  rw [h0]
  rw [foldDims_ok src.dims { attrs := src.attrs, dims := [], vars := [] } hd (by simp)]
  show Except.bind
    (src.vars.foldlM (fun d p => do
        let d' ← createVariable d p.1 p.2.datatype p.2.dimensions
        pure (setVarAttrsData d' p.1 p.2.attrs p.2.data))
      { attrs := src.attrs, dims := [] ++ src.dims, vars := [] })
    (fun d2 => pure d2) = _
  rw [foldVars_ok src.vars { attrs := src.attrs, dims := [] ++ src.dims, vars := [] }
    hv (by simp) hva ?_]
  · rfl
  · intro p hp dim hdim
    simpa using hvd p hp dim hdim

/-! ### Lemmas on variable lookup and unexpected-variable propagation -/

theorem alookup_isSome_iff_mem (l : List (String × NCVariable)) (n : String) :
    (alookup l n).isSome ↔ n ∈ l.map Prod.fst := by
  induction l with
  | nil => simp [alookup]
  | cons a t ih =>
      unfold alookup
      by_cases he : a.1 = n
      · simp [he]
      · simp [he, ih, Ne.symm he]

theorem alookup_append_singleton_ne (l : List (String × NCVariable))
    (m : String) (v : NCVariable) (n : String) (h : m ≠ n) :
    alookup (l ++ [(m, v)]) n = alookup l n := by
  induction l with
  | nil => simp [alookup, h]
  | cons a t ih =>
      simp only [List.cons_append]
      unfold alookup
      by_cases he : a.1 = n
      · simp [he]
      · simp only [if_neg he]
        exact ih

theorem foldAddUnexpected_preserves (l : List (String × NCVariable)) :
    ∀ (ds : NCDataset) (n : String), (alookup ds.vars n).isSome →
      alookup (l.foldl addUnexpectedVar ds).vars n = alookup ds.vars n := by
  induction l with
  | nil =>
      intro ds n _
      rfl
  | cons a t ih =>
      intro ds n hn
      simp only [List.foldl_cons]
      by_cases hc : (ds.vars.map Prod.fst).contains a.1
      · have hkeep : addUnexpectedVar ds a = ds := by
          unfold addUnexpectedVar
          rw [if_pos hc]
        rw [hkeep]
        exact ih ds n hn
      · have hmem : a.1 ∉ ds.vars.map Prod.fst := by
          simpa using hc
        have hne : a.1 ≠ n := by
          intro he
          exact hmem (he ▸ (alookup_isSome_iff_mem ds.vars n).mp hn)
        have hstep : addUnexpectedVar ds a =
            { ds with vars := ds.vars ++
              [(a.1, { datatype := a.2.datatype, dimensions := ["p_id"],
                       attrs := a.2.attrs, data := a.2.data })] } := by
          unfold addUnexpectedVar
          rw [if_neg hc]
        rw [hstep]
        have hlook := alookup_append_singleton_ne ds.vars a.1
          { datatype := a.2.datatype, dimensions := ["p_id"],
            attrs := a.2.attrs, data := a.2.data } n hne
        rw [ih _ n (by rw [hlook]; exact hn), hlook]

theorem foldDims_error (ds : List (String × Option Nat)) :
    ∀ d : NCDataset, (∃ p ∈ ds, p.1 ∈ d.dims.map Prod.fst) →
      raised (ds.foldlM (fun d p => createDimension d p.1 p.2) d) = true := by
  induction ds with
  | nil =>
      intro d h
      obtain ⟨p, hp, _⟩ := h
      exact absurd hp (by simp)
  | cons a t ih =>
      intro d h
      simp only [List.foldlM_cons]
      by_cases hc : a.1 ∈ d.dims.map Prod.fst
      · have herr : createDimension d a.1 a.2 =
            Except.error ("dimension name in use: " ++ a.1) := by
          simp [createDimension, hc]
        rw [herr]
        rfl
      · have hstep : createDimension d a.1 a.2 =
            Except.ok { d with dims := d.dims ++ [(a.1, a.2)] } := by
          simp [createDimension, hc]
        rw [hstep]
        show raised (List.foldlM (fun d p => createDimension d p.1 p.2)
          { d with dims := d.dims ++ [(a.1, a.2)] } t) = true
        apply ih
        obtain ⟨p, hp, hpm⟩ := h
        rcases List.mem_cons.mp hp with he | hpt
        · exact absurd (he ▸ hpm) hc
        · exact ⟨p, hpt, by simp [hpm]⟩

theorem foldVars_error (vs : List (String × NCVariable)) :
    ∀ d : NCDataset, (∃ p ∈ vs, p.1 ∈ d.vars.map Prod.fst) →
      raised (vs.foldlM (fun d p => do
          let d' ← createVariable d p.1 p.2.datatype p.2.dimensions
          pure (setVarAttrsData d' p.1 p.2.attrs p.2.data)) d) = true := by
  induction vs with
  | nil =>
      intro d h
      obtain ⟨p, hp, _⟩ := h
      exact absurd hp (by simp)
  | cons a t ih =>
      intro d h
      simp only [List.foldlM_cons]
      by_cases hc : a.1 ∈ d.vars.map Prod.fst
      · have herr : createVariable d a.1 a.2.datatype a.2.dimensions =
            Except.error ("variable name in use: " ++ a.1) := by
          simp [createVariable, hc]
        rw [herr]
        simp only [exceptBind_error]
        rfl
      · cases hcv : createVariable d a.1 a.2.datatype a.2.dimensions with
        | error e =>
            simp only [exceptBind_error]
            rfl
        | ok d' =>
            have hkeys : d'.vars.map Prod.fst = d.vars.map Prod.fst ++ [a.1] := by
              unfold createVariable at hcv
              rw [if_neg (by simpa using hc)] at hcv
              by_cases h2 : (a.2.dimensions.any
                  (fun dim => !((d.dims.map Prod.fst).contains dim))) = true
              · rw [if_pos h2] at hcv
                exact Except.noConfusion hcv
              · rw [if_neg h2] at hcv
                have hinj := Except.ok.inj hcv
                rw [← hinj]
                simp
            simp only [exceptBind_ok, exceptBind_pure]
            apply ih
            obtain ⟨p, hp, hpm⟩ := h
            rcases List.mem_cons.mp hp with he | hpt
            · exact absurd (he ▸ hpm) hc
            · refine ⟨p, hpt, ?_⟩
              rw [setVarAttrsData_keys, hkeys]
              simp [hpm]

theorem copyDataset_dim_collision (src dst : NCDataset) (n : String)
    (hn : n ∈ src.dims.map Prod.fst) (hm : n ∈ dst.dims.map Prod.fst) :
    raised (copyDataset src dst) = true := by
  obtain ⟨p, hp, hpe⟩ := List.mem_map.mp hn
  have herr := foldDims_error src.dims
    { dst with attrs := setAtts dst.attrs src.attrs }
    ⟨p, hp, by simpa [hpe] using hm⟩
  show raised (Except.bind
    (src.dims.foldlM (fun d p => createDimension d p.1 p.2)
      { dst with attrs := setAtts dst.attrs src.attrs })
    (fun d1 => Except.bind
      (src.vars.foldlM (fun d p => do
          let d' ← createVariable d p.1 p.2.datatype p.2.dimensions
          pure (setVarAttrsData d' p.1 p.2.attrs p.2.data)) d1)
      (fun d2 => pure d2))) = true
  cases hres : src.dims.foldlM (fun d p => createDimension d p.1 p.2)
      ({ dst with attrs := setAtts dst.attrs src.attrs } : NCDataset) with
  | error e =>
      rfl
  | ok d1 =>
      rw [hres] at herr
      exact absurd herr (by simp [raised])

theorem copyDataset_var_collision (src dst : NCDataset) (n : String)
    (hnd : (src.dims.map Prod.fst).Nodup)
    (hdisj : ∀ p ∈ src.dims, p.1 ∉ dst.dims.map Prod.fst)
    (hn : n ∈ src.vars.map Prod.fst) (hm : n ∈ dst.vars.map Prod.fst) :
    raised (copyDataset src dst) = true := by
  show raised (Except.bind
    (src.dims.foldlM (fun d p => createDimension d p.1 p.2)
      { dst with attrs := setAtts dst.attrs src.attrs })
    (fun d1 => Except.bind
      (src.vars.foldlM (fun d p => do
          let d' ← createVariable d p.1 p.2.datatype p.2.dimensions
          pure (setVarAttrsData d' p.1 p.2.attrs p.2.data)) d1)
      (fun d2 => pure d2))) = true
  rw [foldDims_ok src.dims { dst with attrs := setAtts dst.attrs src.attrs }
    hnd (by simpa using hdisj)]
  obtain ⟨p, hp, hpe⟩ := List.mem_map.mp hn
  have herr := foldVars_error src.vars
    { dst with attrs := setAtts dst.attrs src.attrs,
               dims := dst.dims ++ src.dims }
    ⟨p, hp, by simpa [hpe] using hm⟩
  show raised (Except.bind
    (src.vars.foldlM (fun d p => do
        let d' ← createVariable d p.1 p.2.datatype p.2.dimensions
        pure (setVarAttrsData d' p.1 p.2.attrs p.2.data))
      { dst with attrs := setAtts dst.attrs src.attrs,
                 dims := dst.dims ++ src.dims })
    (fun d2 => pure d2)) = true
  cases hres : src.vars.foldlM (fun d p => do
      let d' ← createVariable d p.1 p.2.datatype p.2.dimensions
      pure (setVarAttrsData d' p.1 p.2.attrs p.2.data))
      ({ dst with attrs := setAtts dst.attrs src.attrs,
                  dims := dst.dims ++ src.dims } : NCDataset) with
  | error e =>
      rfl
  | ok d2 =>
      rw [hres] at herr
      exact absurd herr (by simp [raised])

/-- Claim C6 counterexample: a per-particle chunk variable `age` whose name
already exists in the container is silently skipped by
`_copy_unexpected_variables` — the call returns normally (no schema-collision
fault) and the stored variable keeps its old data instead of faulting. -/
theorem copyUnexpected_existing_name_skipped :
    copyUnexpectedVariables
        { attrs := [], dims := [("p_id", some 1)],
          vars := [("age", { datatype := "f8", dimensions := ["p_id"],
                             attrs := [], data := [1] })] }
        [("age", { datatype := "f8", dimensions := ["p_id"],
                   attrs := [], data := [9] })] =
      { attrs := [], dims := [("p_id", some 1)],
        vars := [("age", { datatype := "f8", dimensions := ["p_id"],
                           attrs := [], data := [1] })] } := by
  decide

/-- Claim C6 (amended): during `copy_dataset`, a dimension or variable name
already defined in the destination raises (a fault from the underlying
netCDF layer), and during unexpected-variable propagation a per-particle
variable whose name already exists in the container is silently skipped,
its existing definition and data left unchanged; in neither case is existing
data overwritten. -/
theorem copy_collision_behaviour :
    (∀ (ds : NCDataset) (cvs : List (String × NCVariable)) (n : String),
        (alookup ds.vars n).isSome →
        alookup (copyUnexpectedVariables ds cvs).vars n = alookup ds.vars n) ∧
    (∀ (src dst : NCDataset) (n : String),
        n ∈ src.dims.map Prod.fst → n ∈ dst.dims.map Prod.fst →
        raised (copyDataset src dst) = true) ∧
    (∀ (src dst : NCDataset) (n : String),
        (src.dims.map Prod.fst).Nodup →
        (∀ p ∈ src.dims, p.1 ∉ dst.dims.map Prod.fst) →
        n ∈ src.vars.map Prod.fst → n ∈ dst.vars.map Prod.fst →
        raised (copyDataset src dst) = true) := by
  refine ⟨?_, ?_, ?_⟩
  · intro ds cvs n hn
    exact foldAddUnexpected_preserves _ ds n hn
  · intro src dst n hn hm
    exact copyDataset_dim_collision src dst n hn hm
  · intro src dst n hnd hdisj hn hm
    exact copyDataset_var_collision src dst n hnd hdisj hn hm

/-- Witness for C3 on a concrete source container. -/
theorem copyDataset_fresh_reproduces_source_witness :
    copyDataset sampleNC emptyNC =
      Except.ok { attrs := sampleNC.attrs, dims := sampleNC.dims,
                  vars := sampleNC.vars } :=
  copyDataset_fresh_reproduces_source sampleNC (by decide)

/-- Witness for the amended C6: the colliding `age` is skipped by
propagation, and `copy_dataset` raises on a dimension collision (`p_id`) and
on a variable collision (`age`). -/
theorem copy_collision_behaviour_witness :
    alookup (copyUnexpectedVariables dsWithAge
        [("age", { datatype := "f8", dimensions := ["p_id"],
                   attrs := [], data := [9] })]).vars "age" =
      alookup dsWithAge.vars "age" ∧
    raised (copyDataset sampleNC dsWithAge) = true ∧
    raised (copyDataset srcWithAge dsWithAge) = true :=
  ⟨copy_collision_behaviour.1 dsWithAge
      [("age", { datatype := "f8", dimensions := ["p_id"],
                 attrs := [], data := [9] })] "age" (by decide),
   copy_collision_behaviour.2.1 sampleNC dsWithAge "p_id" (by decide) (by decide),
   copy_collision_behaviour.2.2 srcWithAge dsWithAge "age" (by decide)
     (by decide) (by decide) (by decide)⟩

/-! ### Year handling: lemmas for the writer state machine -/

theorem lookupFile_setFile (files : List (String × OutFile)) (p : String)
    (f : OutFile) : lookupFile (setFile files p f) p = some f := by
  induction files with
  | nil => simp [setFile, lookupFile]
  | cons e rest ih =>
      by_cases he : e.1 = p
      · simp [setFile, lookupFile, he]
      · simp [setFile, lookupFile, he, ih]

theorem yearRange_self (y : Int) : yearRange y y = [y] := by
  unfold yearRange
  rw [show (y + 1 - y).toNat = 1 from by omega]
  simp [List.range_succ]

/-- Claim C4 counterexample: ingesting 1999, then 2000, then 1999 again is
not rejected: the third chunk is accepted, the 1999 path is appended a second
time (a duplicate), and the existing 1999 file is re-created in mode `w`,
replacing its original time series `[1000]` with `[5000]`. -/
theorem revisit_earlier_year_not_rejected :
    ((writeSequence Variant.twoD w0
        [soloChunk 1999 [1000] 0 1, soloChunk 2000 [2000] 0 2,
         soloChunk 1999 [5000] 0 3]).map WriterState.paths) =
      some ["out/traj_1999.nc", "out/traj_2000.nc", "out/traj_1999.nc"] ∧
    ((writeSequence Variant.twoD w0 [soloChunk 1999 [1000] 0 1]).bind
        (fun st => lookupFile st.files "out/traj_1999.nc")).map OutFile.time =
      some [1000] ∧
    ((writeSequence Variant.twoD w0
        [soloChunk 1999 [1000] 0 1, soloChunk 2000 [2000] 0 2,
         soloChunk 1999 [5000] 0 3]).bind
        (fun st => lookupFile st.files "out/traj_1999.nc")).map OutFile.time =
      some [5000] := by
  refine ⟨by decide, by decide, by decide⟩

/-- Claim C4 (amended): ingesting a chunk whose year is strictly earlier than
the tracked year is *not* rejected: the writer takes the creation branch,
marks the earlier year current, appends that year's deterministic path again
(duplicating it if it was produced before), and re-creates the file at that
path in mode `w`, overwriting whatever was there. -/
theorem writeOutputChunk_earlier_year_recreates (v : Variant) (w : WriterState)
    (c : Chunk) (y cy : Int) (hcur : w.currentYear = some cy) (hlt : y < cy)
    (hne : c.time ≠ []) (hall : ∀ t ∈ c.time, t.year = y) :
    writeOutputChunk v w c = some (createForYear v (sliceYear c y) w y) ∧
    (createForYear v (sliceYear c y) w y).paths = w.paths ++ [mkPath w y] ∧
    lookupFile (createForYear v (sliceYear c y) w y).files (mkPath w y) =
      some (writeFirstChunk v (setCurrentYear w y) (sliceYear c y)) := by
  refine ⟨?_, rfl, lookupFile_setFile _ _ _⟩
  obtain ⟨t0, h0⟩ : ∃ t0, c.time.head? = some t0 := by
    cases hx : c.time with
    | nil => exact absurd hx hne
    | cons a l => exact ⟨a, rfl⟩
  obtain ⟨t1, h1⟩ : ∃ t1, c.time.getLast? = some t1 := by
    cases hx : c.time with
    | nil => exact absurd hx hne
    | cons a l => exact ⟨(a :: l).getLast (by simp), List.getLast?_eq_getLast _ (by simp)⟩
  have hy0 : t0.year = y := hall t0 (List.mem_of_mem_head? h0)
  have hy1 : t1.year = y := hall t1 (List.mem_of_mem_getLast? h1)
  unfold writeOutputChunk
  rw [h0, h1]
  show List.foldlM (stepYear v c) w (yearRange t0.year t1.year) = _
  rw [hy0, hy1, yearRange_self]
  simp only [List.foldlM_cons, List.foldlM_nil]
  have hcond : w.currentYear ≠ some y := by
    rw [hcur]
    intro heq
    have := Option.some.inj heq
    omega
  have hstep : stepYear v c w y = some (createForYear v (sliceYear c y) w y) := by
    show (if w.currentYear ≠ some y then some (createForYear v (sliceYear c y) w y)
      else appendForYear v (sliceYear c y) w) = _
    rw [if_pos hcond]
  rw [hstep]
  rfl

/-- Witness for the amended C4: a writer tracking year 2000 accepts a 1999
chunk and re-creates the 1999 file. -/
theorem writeOutputChunk_earlier_year_recreates_witness :
    writeOutputChunk Variant.twoD wPrev (soloChunk 1999 [5] 0 1) =
      some (createForYear Variant.twoD (sliceYear (soloChunk 1999 [5] 0 1) 1999)
        wPrev 1999) ∧
    (createForYear Variant.twoD (sliceYear (soloChunk 1999 [5] 0 1) 1999)
        wPrev 1999).paths = wPrev.paths ++ [mkPath wPrev 1999] ∧
    lookupFile (createForYear Variant.twoD
        (sliceYear (soloChunk 1999 [5] 0 1) 1999) wPrev 1999).files
        (mkPath wPrev 1999) =
      some (writeFirstChunk Variant.twoD (setCurrentYear wPrev 1999)
        (sliceYear (soloChunk 1999 [5] 0 1) 1999)) :=
  writeOutputChunk_earlier_year_recreates Variant.twoD wPrev
    (soloChunk 1999 [5] 0 1) 1999 2000 rfl (by decide) (by decide) (by decide)

/-! ### Same-year chunk sequences: slicing and appending -/

theorem sliceRow_all (ts : List Time) (y : Int) :
    ∀ row : List Int, (∀ t ∈ ts, t.year = y) → row.length = ts.length →
      sliceRow ts y row = row := by
  induction ts with
  | nil =>
      intro row _ hlen
      cases row with
      | nil => rfl
      | cons r rs => simp at hlen
  | cons a t ih =>
      intro row hall hlen
      cases row with
      | nil => simp at hlen
      | cons r rs =>
          have hy : a.year = y := hall a (by simp)
          have ht : sliceRow t y rs = rs :=
            ih rs (fun x hx => hall x (by simp [hx])) (by simpa using hlen)
          show (((a, r) :: t.zip rs).filter (fun p => p.1.year == y)).map
            Prod.snd = r :: rs
          rw [List.filter_cons_of_pos (by simp [hy])]
          show r :: sliceRow t y rs = r :: rs
          rw [ht]

theorem sliceYear_self (c : Chunk) (y : Int) (p : Nat)
    (hall : ∀ t ∈ c.time, t.year = y) (hwf : ChunkWF p c) :
    sliceYear c y = c := by
  obtain ⟨⟨_, hl2⟩, ⟨_, ha2⟩, ⟨_, hd2⟩⟩ := hwf
  have htime : c.time.filter (fun t => t.year == y) = c.time :=
    List.filter_eq_self.mpr (fun t ht => by simp [hall t ht])
  have hlon : c.lon.map (sliceRow c.time y) = c.lon := by
    rw [List.map_congr_left
      (fun r hr => sliceRow_all c.time y r hall (hl2 r hr) : ∀ r ∈ c.lon,
        sliceRow c.time y r = id r)]
    simp
  have hlat : c.lat.map (sliceRow c.time y) = c.lat := by
    rw [List.map_congr_left
      (fun r hr => sliceRow_all c.time y r hall (ha2 r hr) : ∀ r ∈ c.lat,
        sliceRow c.time y r = id r)]
    simp
  have hdepth : c.depth.map (sliceRow c.time y) = c.depth := by
    rw [List.map_congr_left
      (fun r hr => sliceRow_all c.time y r hall (hd2 r hr) : ∀ r ∈ c.depth,
        sliceRow c.time y r = id r)]
    simp
  unfold sliceYear
  rw [htime, hlon, hlat, hdepth]

theorem stepYear_create (v : Variant) (c : Chunk) (w : WriterState) (y : Int)
    (hcond : w.currentYear ≠ some y) :
    stepYear v c w y = some (createForYear v (sliceYear c y) w y) := by
  show (if w.currentYear ≠ some y
    then some (createForYear v (sliceYear c y) w y)
    else appendForYear v (sliceYear c y) w) = _
  rw [if_pos hcond]

theorem stepYear_append (v : Variant) (c : Chunk) (w : WriterState) (y : Int)
    (hcond : w.currentYear = some y) :
    stepYear v c w y = appendForYear v (sliceYear c y) w := by
  show (if w.currentYear ≠ some y
    then some (createForYear v (sliceYear c y) w y)
    else appendForYear v (sliceYear c y) w) = _
  rw [if_neg (by simp [hcond])]

/-- A chunk all of whose timestamps fall in year `y` makes the per-year loop
run exactly once, on `y`. -/
theorem writeOutputChunk_single_year (v : Variant) (w : WriterState)
    (c : Chunk) (y : Int) (hne : c.time ≠ [])
    (hall : ∀ t ∈ c.time, t.year = y) :
    writeOutputChunk v w c = stepYear v c w y := by
  obtain ⟨t0, h0⟩ : ∃ t0, c.time.head? = some t0 := by
    cases hx : c.time with
    | nil => exact absurd hx hne
    | cons a l => exact ⟨a, rfl⟩
  obtain ⟨t1, h1⟩ : ∃ t1, c.time.getLast? = some t1 := by
    cases hx : c.time with
    | nil => exact absurd hx hne
    | cons a l =>
        exact ⟨(a :: l).getLast (by simp), List.getLast?_eq_getLast _ (by simp)⟩
  have hy0 : t0.year = y := hall t0 (List.mem_of_mem_head? h0)
  have hy1 : t1.year = y := hall t1 (List.mem_of_mem_getLast? h1)
  unfold writeOutputChunk
  rw [h0, h1]
  show List.foldlM (stepYear v c) w (yearRange t0.year t1.year) = _
  rw [hy0, hy1, yearRange_self]
  simp only [List.foldlM_cons, List.foldlM_nil]
  rw [bind_pure]

theorem writeOutputChunk_create (v : Variant) (w : WriterState) (c : Chunk)
    (y : Int) (p : Nat) (hne : c.time ≠ []) (hall : ∀ t ∈ c.time, t.year = y)
    (hwf : ChunkWF p c) (hcond : w.currentYear ≠ some y) :
    writeOutputChunk v w c = some (createForYear v c w y) := by
  rw [writeOutputChunk_single_year v w c y hne hall, stepYear_create v c w y hcond,
    sliceYear_self c y p hall hwf]

theorem writeOutputChunk_append (v : Variant) (w : WriterState) (c : Chunk)
    (y : Int) (p : Nat) (pth : String) (f : OutFile) (hne : c.time ≠ [])
    (hall : ∀ t ∈ c.time, t.year = y) (hwf : ChunkWF p c)
    (hcur : w.currentYear = some y) (hlast : w.paths.getLast? = some pth)
    (hfile : lookupFile w.files pth = some f) :
    writeOutputChunk v w c =
      some { w with files := setFile w.files pth (appendChunk v f c) } := by
  rw [writeOutputChunk_single_year v w c y hne hall, stepYear_append v c w y hcur,
    sliceYear_self c y p hall hwf]
  unfold appendForYear
  rw [hlast]
  show (lookupFile w.files pth).bind _ = _
  rw [hfile]
  rfl

/-- Ingesting a sequence of chunks that all append to the same open year
accumulates `appendChunk` over the file at the year's path. -/
theorem writeSequence_append_run (v : Variant) (y : Int) (p : Nat)
    (pth : String) (cs : List Chunk) :
    ∀ (w : WriterState) (f : OutFile),
      (∀ c ∈ cs, (∀ t ∈ c.time, t.year = y) ∧ c.time ≠ [] ∧ ChunkWF p c) →
      w.currentYear = some y → w.paths.getLast? = some pth →
      lookupFile w.files pth = some f →
      (writeSequence v w cs).bind (fun st => lookupFile st.files pth) =
        some (cs.foldl (appendChunk v) f) := by
  induction cs with
  | nil =>
      intro w f _ _ _ hfile
      show (some w).bind (fun st => lookupFile st.files pth) = some f
      simpa using hfile
  | cons c rest ih =>
      intro w f hcs hcur hlast hfile
      obtain ⟨hall, hne, hwf⟩ := hcs c (by simp)
      have hstep := writeOutputChunk_append v w c y p pth f hne hall hwf hcur
        hlast hfile
      show ((List.foldlM (writeOutputChunk v) w (c :: rest)).bind
        (fun st => lookupFile st.files pth)) = _
      simp only [List.foldlM_cons]
      rw [hstep]
      show (writeSequence v
        { w with files := setFile w.files pth (appendChunk v f c) } rest).bind
        (fun st => lookupFile st.files pth) = _
      simp only [List.foldl_cons]
      exact ih { w with files := setFile w.files pth (appendChunk v f c) }
        (appendChunk v f c) (fun x hx => hcs x (by simp [hx])) hcur hlast
        (lookupFile_setFile w.files pth (appendChunk v f c))

/-! ### Content of appended files -/

theorem zipWith_take_append (s : Nat) (frs : List (List Int)) :
    ∀ crs : List (List Int), (∀ r ∈ frs, r.length = s) →
      List.zipWith (fun fr cr => fr.take s ++ cr) frs crs =
        List.zipWith (· ++ ·) frs crs := by
  induction frs with
  | nil => intro crs _; rfl
  | cons a t ih =>
      intro crs h
      cases crs with
      | nil => rfl
      | cons b bs =>
          have ha : a.take s = a := by
            rw [← h a (by simp)]
            exact List.take_length a
          simp only [List.zipWith_cons_cons, ha,
            ih bs (fun r hr => h r (by simp [hr]))]

theorem zipWith_append_rows (s t : Nat) (frs : List (List Int)) :
    ∀ crs : List (List Int), (∀ r ∈ frs, r.length = s) →
      (∀ r ∈ crs, r.length = t) →
      ∀ r ∈ List.zipWith (· ++ ·) frs crs, r.length = s + t := by
  induction frs with
  | nil => intro crs _ _ r hr; simp at hr
  | cons a as ih =>
      intro crs hf hc r hr
      cases crs with
      | nil => simp at hr
      | cons b bs =>
          simp only [List.zipWith_cons_cons, List.mem_cons] at hr
          rcases hr with he | ht
          · rw [he]
            simp [hf a (by simp), hc b (by simp)]
          · exact ih bs (fun x hx => hf x (by simp [hx]))
              (fun x hx => hc x (by simp [hx])) r ht

theorem appendChunk_time (v : Variant) (f : OutFile) (c : Chunk) :
    (appendChunk v f c).time = f.time ++ c.time.map Time.sec := by
  cases v <;> rfl

theorem appendChunk_exit (v : Variant) (f : OutFile) (c : Chunk) :
    (appendChunk v f c).exit_code = c.exit_code.map toByte := by
  cases v <;> rfl

theorem appendChunk_lon (v : Variant) (f : OutFile) (c : Chunk) (p : Nat)
    (hf : OutFileWF v p f) :
    (appendChunk v f c).lon = List.zipWith (· ++ ·) f.lon c.lon := by
  cases v <;>
    exact zipWith_take_append f.time.length f.lon c.lon (fun r hr => hf.1.2 r hr)

theorem appendChunk_lat (v : Variant) (f : OutFile) (c : Chunk) (p : Nat)
    (hf : OutFileWF v p f) :
    (appendChunk v f c).lat = List.zipWith (· ++ ·) f.lat c.lat := by
  cases v <;>
    exact zipWith_take_append f.time.length f.lat c.lat (fun r hr => hf.2.1.2 r hr)

theorem appendChunk_depth2D (f : OutFile) (c : Chunk) :
    (appendChunk Variant.twoD f c).depth = f.depth := rfl

theorem appendChunk_depth3D (f : OutFile) (c : Chunk) (p : Nat)
    (hf : OutFileWF Variant.threeD p f) :
    (appendChunk Variant.threeD f c).depth =
      List.zipWith (· ++ ·) f.depth c.depth := by
  show List.zipWith (fun fr cr => fr.take f.time.length ++ cr) f.depth c.depth = _
  exact zipWith_take_append f.time.length f.depth c.depth
    (fun r hr => (hf.2.2.1 rfl).2 r hr)

theorem appendChunk_wf (v : Variant) (f : OutFile) (c : Chunk) (p : Nat)
    (hf : OutFileWF v p f) (hc : ChunkWF p c) :
    OutFileWF v p (appendChunk v f c) := by
  have hf0 := hf
  obtain ⟨⟨hfl1, hfl2⟩, ⟨hfa1, hfa2⟩, hfd3, hfd2⟩ := hf0
  obtain ⟨⟨hcl1, hcl2⟩, ⟨hca1, hca2⟩, ⟨hcd1, hcd2⟩⟩ := hc
  have htime : (appendChunk v f c).time.length = f.time.length + c.time.length := by
    rw [appendChunk_time]
    simp
  refine ⟨⟨?_, ?_⟩, ⟨?_, ?_⟩, ?_, ?_⟩
  · rw [appendChunk_lon v f c p hf]
    simp [List.length_zipWith, hfl1, hcl1]
  · intro r hr
    rw [appendChunk_lon v f c p hf] at hr
    rw [htime]
    exact zipWith_append_rows f.time.length c.time.length f.lon c.lon hfl2
      (by simpa using hcl2) r hr
  · rw [appendChunk_lat v f c p hf]
    simp [List.length_zipWith, hfa1, hca1]
  · intro r hr
    rw [appendChunk_lat v f c p hf] at hr
    rw [htime]
    exact zipWith_append_rows f.time.length c.time.length f.lat c.lat hfa2
      (by simpa using hca2) r hr
  · intro h3
    subst h3
    obtain ⟨hfd31, hfd32⟩ := hfd3 rfl
    refine ⟨?_, ?_⟩
    · rw [appendChunk_depth3D f c p hf]
      simp [List.length_zipWith, hfd31, hcd1]
    · intro r hr
      rw [appendChunk_depth3D f c p hf] at hr
      rw [htime]
      exact zipWith_append_rows f.time.length c.time.length f.depth c.depth
        hfd32 (by simpa using hcd2) r hr
  · intro h2
    subst h2
    rw [appendChunk_depth2D]
    exact hfd2 rfl

theorem writeFirstChunk_time (v : Variant) (w : WriterState) (c : Chunk) :
    (writeFirstChunk v w c).time = c.time.map Time.sec := by
  cases v <;> rfl

theorem writeFirstChunk_lon (v : Variant) (w : WriterState) (c : Chunk) :
    (writeFirstChunk v w c).lon = c.lon := by
  cases v <;> rfl

theorem writeFirstChunk_lat (v : Variant) (w : WriterState) (c : Chunk) :
    (writeFirstChunk v w c).lat = c.lat := by
  cases v <;> rfl

theorem writeFirstChunk_exit (v : Variant) (w : WriterState) (c : Chunk) :
    (writeFirstChunk v w c).exit_code = c.exit_code.map toByte := by
  cases v <;> rfl

theorem writeFirstChunk_depth3D (w : WriterState) (c : Chunk) :
    (writeFirstChunk Variant.threeD w c).depth = c.depth := rfl

theorem writeFirstChunk_depth2D (w : WriterState) (c : Chunk) :
    (writeFirstChunk Variant.twoD w c).depth = [] := rfl

theorem writeFirstChunk_wf (v : Variant) (w : WriterState) (c : Chunk)
    (p : Nat) (hc : ChunkWF p c) : OutFileWF v p (writeFirstChunk v w c) := by
  obtain ⟨⟨hcl1, hcl2⟩, ⟨hca1, hca2⟩, ⟨hcd1, hcd2⟩⟩ := hc
  have htime : (writeFirstChunk v w c).time.length = c.time.length := by
    rw [writeFirstChunk_time]
    simp
  refine ⟨⟨?_, ?_⟩, ⟨?_, ?_⟩, ?_, ?_⟩
  · rw [writeFirstChunk_lon]; exact hcl1
  · intro r hr
    rw [writeFirstChunk_lon] at hr
    rw [htime]
    exact hcl2 r hr
  · rw [writeFirstChunk_lat]; exact hca1
  · intro r hr
    rw [writeFirstChunk_lat] at hr
    rw [htime]
    exact hca2 r hr
  · intro h3
    subst h3
    rw [writeFirstChunk_depth3D]
    exact ⟨hcd1, fun r hr => by rw [htime]; exact hcd2 r hr⟩
  · intro h2
    subst h2
    rw [writeFirstChunk_depth2D]

/-- Accumulated contents of a fold of appends: `time` is the concatenation of
the chunks' time values, each particle-by-time matrix accumulates chunkwise
row concatenation, `depth` follows only for the 3D variant, and the result
keeps the shape discipline. -/
theorem foldl_appendChunk_spec (v : Variant) (p : Nat) (cs : List Chunk) :
    ∀ f : OutFile, OutFileWF v p f → (∀ c ∈ cs, ChunkWF p c) →
      (cs.foldl (appendChunk v) f).time =
        f.time ++ (cs.map (fun c => c.time.map Time.sec)).flatten ∧
      (cs.foldl (appendChunk v) f).lon =
        (cs.map Chunk.lon).foldl (List.zipWith (· ++ ·)) f.lon ∧
      (cs.foldl (appendChunk v) f).lat =
        (cs.map Chunk.lat).foldl (List.zipWith (· ++ ·)) f.lat ∧
      (v = Variant.threeD → (cs.foldl (appendChunk v) f).depth =
        (cs.map Chunk.depth).foldl (List.zipWith (· ++ ·)) f.depth) ∧
      (v = Variant.twoD → (cs.foldl (appendChunk v) f).depth = f.depth) ∧
      OutFileWF v p (cs.foldl (appendChunk v) f) := by
  induction cs with
  | nil =>
      intro f hf _
      refine ⟨by simp, rfl, rfl, fun _ => rfl, fun _ => rfl, hf⟩
  | cons c rest ih =>
      intro f hf hcs
      have hc : ChunkWF p c := hcs c (by simp)
      have hf' : OutFileWF v p (appendChunk v f c) := appendChunk_wf v f c p hf hc
      obtain ⟨iht, ihlon, ihlat, ihd3, ihd2, ihwf⟩ :=
        ih (appendChunk v f c) hf' (fun x hx => hcs x (by simp [hx]))
      simp only [List.foldl_cons, List.map_cons, List.flatten_cons]
      refine ⟨?_, ?_, ?_, ?_, ?_, ihwf⟩
      · rw [iht, appendChunk_time]
        simp
      · rw [ihlon, appendChunk_lon v f c p hf]
      · rw [ihlat, appendChunk_lat v f c p hf]
      · intro h3
        rw [ihd3 h3]
        subst h3
        rw [appendChunk_depth3D f c p hf]
      · intro h2
        rw [ihd2 h2]
        subst h2
        rw [appendChunk_depth2D]

/-- The `exit_code` stored after a fold of appends is the last chunk's (cast
to byte), or the starting file's when no chunk was appended. -/
theorem foldl_appendChunk_exit (v : Variant) (cs : List Chunk) :
    ∀ f : OutFile, (cs.foldl (appendChunk v) f).exit_code =
      ((cs.getLast?).map (fun c => c.exit_code.map toByte)).getD f.exit_code := by
  induction cs with
  | nil => intro f; rfl
  | cons c rest ih =>
      intro f
      simp only [List.foldl_cons]
      rw [ih (appendChunk v f c)]
      cases hr : rest with
      | nil => simp [appendChunk_exit]
      | cons r rs =>
          rw [List.getLast?_cons_cons]
          have hne : (r :: rs).getLast? ≠ none := by
            rw [List.getLast?_eq_getLast _ (by simp)]
            simp
          cases hx : (r :: rs).getLast? with
          | none => exact absurd hx hne
          | some d => simp

/-- Claim C2: ingesting a sequence of same-year chunks (time-slice lengths
t1, ..., tn) through one writer appends each chunk at the current end of the
file: the `time` variable is the concatenation of the chunks' timestamps (so
its length is t1 + ... + tn and chunk i starts at offset t1 + ... + t(i-1)),
`lon` and `lat` rows are the chunkwise concatenations at those same
second-axis offsets, `depth` likewise for the 3D writer (whose append offset
is the pre-append time length read before delegating to the base append),
and `exit_code` is overwritten on each append, ending as the last chunk's
values. -/
theorem writeSequence_same_year_accumulates (v : Variant) (w : WriterState)
    (y : Int) (p : Nat) (cs : List Chunk) (hne : cs ≠ [])
    (hchunks : ∀ c ∈ cs, (∀ t ∈ c.time, t.year = y) ∧ c.time ≠ [] ∧ ChunkWF p c)
    (hbyte : ∀ c ∈ cs, ∀ x ∈ c.exit_code, -128 ≤ x ∧ x ≤ 127)
    (hcond : w.currentYear ≠ some y) :
    (outputFileAt v w cs y).map OutFile.time =
      some ((cs.map (fun c => c.time.map Time.sec)).flatten) ∧
    (outputFileAt v w cs y).map (fun f => f.time.length) =
      some ((cs.map (fun c => c.time.length)).sum) ∧
    (outputFileAt v w cs y).map OutFile.lon =
      some (concatRows (cs.map Chunk.lon)) ∧
    (outputFileAt v w cs y).map OutFile.lat =
      some (concatRows (cs.map Chunk.lat)) ∧
    (v = Variant.threeD → (outputFileAt v w cs y).map OutFile.depth =
      some (concatRows (cs.map Chunk.depth))) ∧
    (outputFileAt v w cs y).map OutFile.exit_code =
      some ((cs.getLast hne).exit_code) := by
  cases cs with
  | nil => exact absurd rfl hne
  | cons c0 rest =>
      obtain ⟨hall0, hne0, hwf0⟩ := hchunks c0 (by simp)
      have hcreate := writeOutputChunk_create v w c0 y p hne0 hall0 hwf0 hcond
      have hcur0 : (createForYear v c0 w y).currentYear = some y := rfl
      have hlast0 : (createForYear v c0 w y).paths.getLast? = some (mkPath w y) := by
        show (w.paths ++ [mkPath w y]).getLast? = _
        exact List.getLast?_concat _
      have hfile0 : lookupFile (createForYear v c0 w y).files (mkPath w y) =
          some (writeFirstChunk v (setCurrentYear w y) c0) :=
        lookupFile_setFile _ _ _
      have hrun := writeSequence_append_run v y p (mkPath w y) rest
        (createForYear v c0 w y) (writeFirstChunk v (setCurrentYear w y) c0)
        (fun x hx => hchunks x (by simp [hx])) hcur0 hlast0 hfile0
      have hseq : outputFileAt v w (c0 :: rest) y =
          some (rest.foldl (appendChunk v)
            (writeFirstChunk v (setCurrentYear w y) c0)) := by
        unfold outputFileAt writeSequence
        simp only [List.foldlM_cons]
        rw [hcreate]
        exact hrun
      have hwfF0 := writeFirstChunk_wf v (setCurrentYear w y) c0 p hwf0
      obtain ⟨ht, hlon, hlat, hd3, _, _⟩ := foldl_appendChunk_spec v p rest
        (writeFirstChunk v (setCurrentYear w y) c0) hwfF0
        (fun x hx => (hchunks x (by simp [hx])).2.2)
      have hexit := foldl_appendChunk_exit v rest
        (writeFirstChunk v (setCurrentYear w y) c0)
      refine ⟨?_, ?_, ?_, ?_, ?_, ?_⟩
      · rw [hseq]
        show some ((rest.foldl (appendChunk v)
          (writeFirstChunk v (setCurrentYear w y) c0)).time) = _
        rw [ht, writeFirstChunk_time]
        simp
      · rw [hseq]
        show some ((rest.foldl (appendChunk v)
          (writeFirstChunk v (setCurrentYear w y) c0)).time.length) = _
        rw [ht, writeFirstChunk_time]
        simp [Function.comp]
        congr 1
        apply List.map_congr_left
        intro c _
        simp
      · rw [hseq]
        show some ((rest.foldl (appendChunk v)
          (writeFirstChunk v (setCurrentYear w y) c0)).lon) = _
        rw [hlon, writeFirstChunk_lon]
        simp [concatRows]
      · rw [hseq]
        show some ((rest.foldl (appendChunk v)
          (writeFirstChunk v (setCurrentYear w y) c0)).lat) = _
        rw [hlat, writeFirstChunk_lat]
        simp [concatRows]
      · intro h3
        rw [hseq]
        show some ((rest.foldl (appendChunk v)
          (writeFirstChunk v (setCurrentYear w y) c0)).depth) = _
        rw [hd3 h3]
        subst h3
        rw [writeFirstChunk_depth3D]
        simp [concatRows]
      · rw [hseq]
        show some ((rest.foldl (appendChunk v)
          (writeFirstChunk v (setCurrentYear w y) c0)).exit_code) = _
        have hgl : (c0 :: rest).getLast hne = (rest.getLast?).getD c0 := by
          have h1 := List.getLast?_eq_getLast (c0 :: rest) hne
          rw [List.getLast?_cons] at h1
          exact (Option.some.inj h1).symm
        rw [hexit, writeFirstChunk_exit, hgl]
        cases hx : rest.getLast? with
        | none =>
            simp only [Option.map_none', Option.getD_none]
            exact congrArg some (map_toByte_eq (hbyte c0 (by simp)))
        | some d =>
            have hd : d ∈ rest := List.mem_of_mem_getLast? hx
            simp only [Option.map_some', Option.getD_some]
            exact congrArg some (map_toByte_eq (hbyte d (by simp [hd])))

/-- Witness for C2: two 3D chunks of the same year (1 then 2 timesteps)
accumulate a time series of length 3 in the year's file. -/
theorem writeSequence_same_year_accumulates_witness :
    (outputFileAt Variant.threeD w0
        [soloChunk 2000 [10] 3 50, soloChunk 2000 [20, 30] 5 60] 2000).map
        OutFile.time =
      some (([soloChunk 2000 [10] 3 50, soloChunk 2000 [20, 30] 5 60].map
        (fun c => c.time.map Time.sec)).flatten) :=
  (writeSequence_same_year_accumulates Variant.threeD w0 2000 1
    [soloChunk 2000 [10] 3 50, soloChunk 2000 [20, 30] 5 60]
    (by decide) (by decide) (by decide) (by decide)).1

/-! ### Year bookkeeping across arbitrary chunk sequences -/

theorem yearRange_cons (a b : Int) (h : a ≤ b) :
    yearRange a b = a :: yearRange (a + 1) b := by
  unfold yearRange
  rw [show (b + 1 - a).toNat = (b + 1 - (a + 1)).toNat + 1 from by omega,
    List.range_succ_eq_map]
  rw [List.map_cons, List.map_map]
  congr 1
  · simp
  · apply List.map_congr_left
    intro i _
    simp only [Function.comp_apply, Int.ofNat_eq_coe]
    push_cast
    ring

theorem yearRange_ne_nil (a b : Int) (h : a ≤ b) : yearRange a b ≠ [] := by
  rw [yearRange_cons a b h]
  simp

theorem foldl_markYear (l : List Int) : ∀ init : Option Int, l ≠ [] →
    l.foldl (fun _ y => some y) init = l.getLast? := by
  induction l with
  | nil => intro init h; exact absurd rfl h
  | cons a t ih =>
      intro init _
      simp only [List.foldl_cons]
      cases ht : t with
      | nil => rfl
      | cons b bs =>
          subst ht
          rw [ih (some a) (by simp)]
          rw [List.getLast?_cons_cons]

theorem yearRange_getLast (k : Nat) : ∀ a b : Int, (b - a).toNat = k → a ≤ b →
    (yearRange a b).getLast? = some b := by
  induction k with
  | zero =>
      intro a b hk hab
      have hab2 : a = b := by omega
      subst hab2
      rw [yearRange_self]
      rfl
  | succ n ihn =>
      intro a b hk hab
      rw [yearRange_cons a b hab]
      rw [List.getLast?_cons, ihn (a + 1) b (by omega) (by omega)]
      rfl

theorem newYearsList_of_lt (k : Nat) : ∀ a b cv : Int, (b + 1 - a).toNat = k →
    cv < a → newYearsList (some cv) (yearRange a b) = yearRange a b := by
  induction k with
  | zero =>
      intro a b cv hk _
      have hnil : yearRange a b = [] := by
        unfold yearRange
        rw [hk]
        rfl
      rw [hnil]
      rfl
  | succ n ihn =>
      intro a b cv hk hlt
      have hab : a ≤ b := by omega
      rw [yearRange_cons a b hab]
      show ((if (some cv : Option Int) = some a then [] else [a]) ++
        newYearsList (some a) (yearRange (a + 1) b)) = _
      rw [if_neg (fun he => absurd (Option.some.inj he) (by omega))]
      rw [ihn (a + 1) b a (by omega) (by omega)]
      rfl

theorem newYearsList_yearRange (cur : Option Int) (a b : Int) (hab : a ≤ b) :
    newYearsList cur (yearRange a b) = chunkNewYears cur a b := by
  rw [yearRange_cons a b hab]
  show ((if cur = some a then [] else [a]) ++
    newYearsList (some a) (yearRange (a + 1) b)) = _
  rw [newYearsList_of_lt ((b + 1 - (a + 1)).toNat) (a + 1) b a rfl (by omega)]
  unfold chunkNewYears
  by_cases hc : cur = some a
  · rw [if_pos hc, if_pos hc]
    rfl
  · rw [if_neg hc, if_neg hc, yearRange_cons a b hab]
    rfl

theorem mkPath_congr (w1 w2 : WriterState) (hf : w1.folder = w2.folder)
    (hb : w1.basename = w2.basename) (y : Int) : mkPath w1 y = mkPath w2 y := by
  unfold mkPath
  rw [hf, hb]

theorem writerInv_some (w : WriterState) (y : Int) (hc : w.currentYear = some y)
    (hinv : WriterInv w) :
    w.paths.getLast? = some (mkPath w y) ∧
      (lookupFile w.files (mkPath w y)).isSome := by
  unfold WriterInv at hinv
  rw [hc] at hinv
  exact hinv

theorem writerInv_of_some (w : WriterState) (y : Int)
    (hc : w.currentYear = some y)
    (h1 : w.paths.getLast? = some (mkPath w y))
    (h2 : (lookupFile w.files (mkPath w y)).isSome) : WriterInv w := by
  unfold WriterInv
  rw [hc]
  exact ⟨h1, h2⟩

/-- Running the per-year loop on an arbitrary year list: it never faults
while the writer invariant holds, appends exactly the paths of the years on
which it takes the creation branch, and ends tracking the last year
processed. -/
theorem foldStep_years (v : Variant) (c : Chunk) (ys : List Int) :
    ∀ w : WriterState, WriterInv w →
      ∃ st, List.foldlM (stepYear v c) w ys = some st ∧
        st.folder = w.folder ∧ st.basename = w.basename ∧
        st.paths = w.paths ++ (newYearsList w.currentYear ys).map (mkPath w) ∧
        st.currentYear = ys.foldl (fun _ y => some y) w.currentYear ∧
        WriterInv st := by
  induction ys with
  | nil =>
      intro w hinv
      exact ⟨w, rfl, rfl, rfl, by simp [newYearsList], rfl, hinv⟩
  | cons y ys' ih =>
      intro w hinv
      by_cases hc : w.currentYear = some y
      · obtain ⟨hlast, hsome⟩ := writerInv_some w y hc hinv
        obtain ⟨f, hf⟩ := Option.isSome_iff_exists.mp hsome
        have hstep : stepYear v c w y =
            some { w with files := (setFile w.files (mkPath w y)
              (appendChunk v f (sliceYear c y))) } := by
          rw [stepYear_append v c w y hc]
          unfold appendForYear
          rw [hlast]
          show (lookupFile w.files (mkPath w y)).bind _ = _
          rw [hf]
          rfl
        have hinv1 : WriterInv { w with files := (setFile w.files (mkPath w y)
            (appendChunk v f (sliceYear c y))) } := by
          refine writerInv_of_some _ y hc hlast ?_
          show (lookupFile (setFile w.files (mkPath w y)
            (appendChunk v f (sliceYear c y))) (mkPath w y)).isSome = true
          rw [lookupFile_setFile]
          rfl
        obtain ⟨st, hfold, hfolder, hbase, hpaths, hcur, hinvst⟩ :=
          ih { w with files := (setFile w.files (mkPath w y)
            (appendChunk v f (sliceYear c y))) } hinv1
        refine ⟨st, ?_, hfolder, hbase, ?_, ?_, hinvst⟩
        · simp only [List.foldlM_cons]
          rw [hstep]
          exact hfold
        · rw [hpaths]
          show w.paths ++ (newYearsList w.currentYear ys').map (mkPath w) =
            w.paths ++ (newYearsList w.currentYear (y :: ys')).map (mkPath w)
          rw [hc]
          show w.paths ++ (newYearsList (some y) ys').map (mkPath w) =
            w.paths ++ ((if (some y : Option Int) = some y then [] else [y]) ++
              newYearsList (some y) ys').map (mkPath w)
          rw [if_pos rfl]
          rfl
        · show st.currentYear = ys'.foldl (fun _ y => some y) (some y)
          rw [← hc]
          exact hcur
      · have hstep := stepYear_create v c w y hc
        have hinv1 : WriterInv (createForYear v (sliceYear c y) w y) := by
          refine writerInv_of_some _ y rfl ?_ ?_
          · show (w.paths ++ [mkPath w y]).getLast? = _
            exact List.getLast?_concat _
          · show (lookupFile (setFile w.files (mkPath w y)
              (writeFirstChunk v (setCurrentYear w y) (sliceYear c y)))
              (mkPath w y)).isSome = true
            rw [lookupFile_setFile]
            rfl
        obtain ⟨st, hfold, hfolder, hbase, hpaths, hcur, hinvst⟩ :=
          ih (createForYear v (sliceYear c y) w y) hinv1
        refine ⟨st, ?_, hfolder, hbase, ?_, ?_, hinvst⟩
        · simp only [List.foldlM_cons]
          rw [hstep]
          exact hfold
        · rw [hpaths]
          show (w.paths ++ [mkPath w y]) ++
            (newYearsList (some y) ys').map (mkPath w) =
            w.paths ++ ((if w.currentYear = some y then [] else [y]) ++
              newYearsList (some y) ys').map (mkPath w)
          rw [if_neg hc]
          simp
        · show st.currentYear = ys'.foldl (fun _ y => some y) (some y)
          exact hcur

/-- Head-to-last ordering of calendar years along a monotone time axis. -/
theorem years_head_le_getLast (l : List Time) :
    ∀ t0 : Time,
      List.Chain' (fun s t : Time => s.sec < t.sec ∧ s.year ≤ t.year) (t0 :: l) →
      t0.year ≤ ((t0 :: l).getLast (by simp)).year := by
  induction l with
  | nil => intro t0 _; simp
  | cons t1 ls ih =>
      intro t0 hch
      rw [List.getLast_cons (by simp)]
      rcases List.chain'_cons.mp hch with ⟨⟨_, hy⟩, hch'⟩
      exact le_trans hy (ih t1 hch')

theorem chunkYearSpan_le (c : Chunk) (a b : Int)
    (hspan : chunkYearSpan c = some (a, b))
    (hmono : List.Chain' (fun s t : Time => s.sec < t.sec ∧ s.year ≤ t.year)
      c.time) : a ≤ b := by
  cases hx : c.time with
  | nil =>
      unfold chunkYearSpan at hspan
      rw [hx] at hspan
      exact Option.noConfusion hspan
  | cons t0 l =>
      unfold chunkYearSpan at hspan
      rw [hx, List.getLast?_eq_getLast (t0 :: l) (by simp)] at hspan
      have hp : (t0.year, ((t0 :: l).getLast (by simp)).year) = (a, b) :=
        Option.some.inj hspan
      have ha : t0.year = a := congrArg Prod.fst hp
      have hb : ((t0 :: l).getLast (by simp)).year = b := congrArg Prod.snd hp
      rw [hx] at hmono
      calc a = t0.year := ha.symm
        _ ≤ ((t0 :: l).getLast (by simp)).year := years_head_le_getLast l t0 hmono
        _ = b := hb

/-- Ingesting one chunk spanning years `a ≤ b`: the loop runs over
`range(a, b + 1)`, creating one file per year of the range (except the first
year when it is already tracked), and ends tracking year `b`. -/
theorem writeOutputChunk_span (v : Variant) (w : WriterState) (c : Chunk)
    (a b : Int) (hspan : chunkYearSpan c = some (a, b)) (hab : a ≤ b)
    (hinv : WriterInv w) :
    ∃ st, writeOutputChunk v w c = some st ∧
      st.folder = w.folder ∧ st.basename = w.basename ∧
      st.paths = w.paths ++ (chunkNewYears w.currentYear a b).map (mkPath w) ∧
      st.currentYear = some b ∧ WriterInv st := by
  have hne : c.time ≠ [] := by
    intro h
    unfold chunkYearSpan at hspan
    rw [h] at hspan
    exact Option.noConfusion hspan
  obtain ⟨t0, h0⟩ : ∃ t0, c.time.head? = some t0 := by
    cases hx : c.time with
    | nil => exact absurd hx hne
    | cons x l => exact ⟨x, rfl⟩
  obtain ⟨t1, h1⟩ : ∃ t1, c.time.getLast? = some t1 := by
    cases hx : c.time with
    | nil => exact absurd hx hne
    | cons x l =>
        exact ⟨(x :: l).getLast (by simp), List.getLast?_eq_getLast _ (by simp)⟩
  have hp : (t0.year, t1.year) = (a, b) := by
    unfold chunkYearSpan at hspan
    rw [h0, h1] at hspan
    exact Option.some.inj hspan
  have hya : t0.year = a := congrArg Prod.fst hp
  have hyb : t1.year = b := congrArg Prod.snd hp
  obtain ⟨st, hfold, hfolder, hbase, hpaths, hcur, hinvst⟩ :=
    foldStep_years v c (yearRange t0.year t1.year) w hinv
  rw [hya, hyb] at hpaths hcur
  rw [newYearsList_yearRange w.currentYear a b hab] at hpaths
  rw [foldl_markYear (yearRange a b) w.currentYear (yearRange_ne_nil a b hab),
    yearRange_getLast ((b - a).toNat) a b rfl hab] at hcur
  refine ⟨st, ?_, hfolder, hbase, hpaths, hcur, hinvst⟩
  unfold writeOutputChunk
  rw [h0, h1]
  show List.foldlM (stepYear v c) w (yearRange t0.year t1.year) = some st
  exact hfold

/-- Ingesting a whole chunk sequence: the produced paths are exactly the
deterministic paths of the creation-branch years collected over the
sequence's year spans. -/
theorem writeSequence_spans (v : Variant) (cs : List Chunk) :
    ∀ (w : WriterState) (spans : List (Int × Int)),
      chunkSpans cs = some spans →
      (∀ c ∈ cs, List.Chain'
        (fun s t : Time => s.sec < t.sec ∧ s.year ≤ t.year) c.time) →
      WriterInv w →
      ∃ st, writeSequence v w cs = some st ∧
        st.folder = w.folder ∧ st.basename = w.basename ∧
        st.paths = w.paths ++
          (collectNewYears w.currentYear spans).map (mkPath w) ∧
        WriterInv st := by
  induction cs with
  | nil =>
      intro w spans hspan _ hinv
      have hsp : spans = [] := by
        unfold chunkSpans at hspan
        exact (Option.some.inj hspan).symm
      subst hsp
      exact ⟨w, rfl, rfl, rfl, by simp [collectNewYears], hinv⟩
  | cons c rest ih =>
      intro w spans hspan hmono hinv
      unfold chunkSpans at hspan
      rw [List.mapM_cons] at hspan
      cases hs : chunkYearSpan c with
      | none =>
          rw [hs] at hspan
          exact Option.noConfusion hspan
      | some s =>
          cases hss : rest.mapM chunkYearSpan with
          | none =>
              rw [hs, hss] at hspan
              exact Option.noConfusion hspan
          | some ss =>
              rw [hs, hss] at hspan
              have hsp : s :: ss = spans := Option.some.inj hspan
              subst hsp
              have hab : s.1 ≤ s.2 :=
                chunkYearSpan_le c s.1 s.2 (by rw [hs]) (hmono c (by simp))
              obtain ⟨st1, hw1, hfolder1, hbase1, hpaths1, hcur1, hinv1⟩ :=
                writeOutputChunk_span v w c s.1 s.2 (by rw [hs]) hab hinv
              obtain ⟨st, hw, hfolder, hbase, hpaths, hinvst⟩ :=
                ih st1 ss hss (fun x hx => hmono x (by simp [hx])) hinv1
              refine ⟨st, ?_, hfolder.trans hfolder1, hbase.trans hbase1, ?_,
                hinvst⟩
              · show (List.foldlM (writeOutputChunk v) w (c :: rest)) = some st
                simp only [List.foldlM_cons]
                rw [hw1]
                exact hw
              · rw [hpaths, hpaths1, hcur1]
                rw [List.map_congr_left (fun y _ =>
                  mkPath_congr st1 w hfolder1 hbase1 y)]
                show (w.paths ++ (chunkNewYears w.currentYear s.1 s.2).map
                    (mkPath w)) ++
                  (collectNewYears (some s.2) ss).map (mkPath w) =
                  w.paths ++ ((chunkNewYears w.currentYear s.1 s.2 ++
                    collectNewYears (some s.2) ss).map (mkPath w))
                simp [List.map_append]

/-- Claim C1 counterexample: a single chunk with monotonically increasing
timestamps whose distinct calendar years are 1999 and 2001 (so k = 2)
creates three files — `range(1999, 2002)` also creates an (empty-slice) file
for the absent year 2000. -/
theorem writeOutputChunk_gap_year_extra_file :
    ((writeOutputChunk Variant.twoD w0 gapChunk).map
      (fun st => (st.paths, st.files.length))) =
      some (["out/traj_1999.nc", "out/traj_2000.nc", "out/traj_2001.nc"], 3) ∧
    (gapChunk.time.map Time.year).dedup = [1999, 2001] ∧
    List.Chain' (fun s t : Time => s.sec < t.sec ∧ s.year ≤ t.year)
      gapChunk.time := by
  refine ⟨by decide, by decide, ?_⟩
  show List.Chain' (fun s t : Time => s.sec < t.sec ∧ s.year ≤ t.year)
    [{ year := 1999, sec := 0 }, { year := 2001, sec := 100 }]
  exact List.chain'_cons.mpr ⟨⟨by norm_num, by norm_num⟩,
    List.chain'_singleton _⟩

/-- Claim C1 (amended): for a sequence of chunks with monotonically
increasing timestamps, ingestion creates exactly one output file per year on
which the per-year loop takes its creation branch — every year of each
chunk's inclusive `range(first-timestamp-year, last-timestamp-year + 1)`,
skipping a chunk's first year exactly when it is already the tracked year —
each at the deterministic path `{out_dir}/{basename}_{year}.nc`.  When the
chunks' distinct calendar years cover those inclusive ranges (no gap years),
this count is exactly the number k of distinct years; a gap year gets a file
of its own beyond the k. -/
theorem writeSequence_paths_eq_collected_years (v : Variant) (w : WriterState)
    (cs : List Chunk) (spans : List (Int × Int))
    (hspan : chunkSpans cs = some spans)
    (hmono : ∀ c ∈ cs, List.Chain'
      (fun s t : Time => s.sec < t.sec ∧ s.year ≤ t.year) c.time)
    (hinv : WriterInv w) :
    (writeSequence v w cs).map WriterState.paths =
      some (w.paths ++ (collectNewYears w.currentYear spans).map (mkPath w)) := by
  obtain ⟨st, hw, _, _, hpaths, _⟩ :=
    writeSequence_spans v cs w spans hspan hmono hinv
  rw [hw, Option.map_some', hpaths]

/-- Witness for the amended C1: two chunks in years 1999 and 2000 from a
fresh writer produce exactly the two deterministic paths. -/
theorem writeSequence_paths_eq_collected_years_witness :
    (writeSequence Variant.twoD w0
        [soloChunk 1999 [10] 0 1, soloChunk 2000 [20] 0 2]).map
      WriterState.paths =
      some (w0.paths ++ (collectNewYears w0.currentYear
        [(1999, 1999), (2000, 2000)]).map (mkPath w0)) :=
  writeSequence_paths_eq_collected_years Variant.twoD w0
    [soloChunk 1999 [10] 0 1, soloChunk 2000 [20] 0 2]
    [(1999, 1999), (2000, 2000)] (by decide)
    (by
      intro c hc
      simp only [List.mem_cons, List.not_mem_nil, or_false] at hc
      rcases hc with h | h <;> subst h <;> exact List.chain'_singleton _)
    (by decide)

end Advector
